import Mathlib

/-!
# Verification of the shp2geojson core (src/preprocess.ts, src/preview.ts)

Shallow embedding of the Shapefile / DBF decoding pipeline and the
GeoJSON assembly step.

Modelling conventions:
* JavaScript strings are modelled as lists of UTF-16 code units
  (`List Nat`, each entry the numeric code unit).  Indexing `s[z]`
  past the end yields JS `undefined`; the places where the source
  feeds such a value to `encodeURIComponent` are modelled explicitly.
* Byte buffers (`ArrayBuffer`/`DataView`) are `List Nat` of bytes;
  an out-of-range `DataView` read throws `RangeError`, modelled by
  `Except` with the `JsError.rangeError` constructor.
* IEEE float64 values are never arithmetically manipulated by the
  decoders: they are read, stored and passed to the (external) proj4
  transform verbatim.  We therefore model a float64 by its 64-bit
  pattern (`Nat` below `2 ^ 64`), and the external coordinate
  transform by an abstract function on patterns.
* The binary side of `DBFParser.parse` (src/preprocess.ts lines
  316-352 and 389-427) reads fixed-offset header numbers and the
  field descriptors; it is independent of the decoded-text walk that
  the claims are about.  The text-processing part of the parser is
  embedded as a function of those binary-derived values
  (`numberOfRecords`, the per-descriptor bytes `BinField`).
-/

namespace Shp2GeoJson

/-! ## JS string primitives (UTF-16 code-unit level) -/

/-- One step of `String.prototype.split("\r")` (src/preprocess.ts
lines 355, 430): JS split always returns at least one (possibly
empty) segment. -/
def splitCR : List Nat → List (List Nat)
  | [] => [[]]
  | c :: rest =>
    if c = 13 then [] :: splitCR rest
    else
      match splitCR rest with
      | t :: ts => (c :: t) :: ts
      | [] => [[c]]

/-- `Array.prototype.join("\r")` (src/preprocess.ts line 360). -/
def joinCR : List (List Nat) → List Nat
  | [] => []
  | [s] => s
  | s :: rest => s ++ 13 :: joinCR rest

/-- JS `String.prototype.trim` whitespace set (WhiteSpace ∪
LineTerminator code points). -/
def isJsSpace (u : Nat) : Bool :=
  (9 ≤ u && u ≤ 13) || u = 32 || u = 0xA0 || u = 0x1680 ||
  (0x2000 ≤ u && u ≤ 0x200A) || u = 0x2028 || u = 0x2029 ||
  u = 0x202F || u = 0x205F || u = 0x3000 || u = 0xFEFF

/-- `String.prototype.trim` on a code-unit list. -/
def jsTrim (s : List Nat) : List Nat :=
  ((s.dropWhile isJsSpace).reverse.dropWhile isJsSpace).reverse

/-- ASCII digit code unit. -/
def isDigitCU (u : Nat) : Bool := 48 ≤ u && u ≤ 57

/-- The scientific-notation pattern of src/preprocess.ts line 457:
regex `\d\.\d{11}e\+\d{3}` anchored at both ends, case-insensitive
(`e` = 101 or `E` = 69, `.` = 46, `+` = 43), 18 code units total. -/
def isSciNotation (s : List Nat) : Bool :=
  match s with
  | [a, dot, c1, c2, c3, c4, c5, c6, c7, c8, c9, c10, c11, e, pl, f1, f2, f3] =>
    isDigitCU a && dot = 46 &&
    isDigitCU c1 && isDigitCU c2 && isDigitCU c3 && isDigitCU c4 &&
    isDigitCU c5 && isDigitCU c6 && isDigitCU c7 && isDigitCU c8 &&
    isDigitCU c9 && isDigitCU c10 && isDigitCU c11 &&
    (e = 101 || e = 69) && pl = 43 &&
    isDigitCU f1 && isDigitCU f2 && isDigitCU f3
  | _ => false

/-! ## The byte-width estimation walk (src/preprocess.ts 369-382, 438-451)

The source estimates how many raw bytes a decoded character occupies by
percent-encoding it (`encodeURIComponent`) and counting `%XX` groups:

* reading past the end of the string yields `undefined`, which
  `encodeURIComponent` stringifies to `"undefined"` — no `%XX` group,
  so the step contributes 1;
* a lone UTF-16 surrogate makes `encodeURIComponent` throw `URIError`;
  the `catch` arm contributes 1;
* a code unit below `0x80` percent-encodes to at most one `%XX` group
  (alphanumerics encode to themselves), contributing 1;
* any other code unit UTF-8-encodes to two or three `%XX` groups
  (`match.length > 1`), contributing the `offset` constant.
-/

/-- Byte-width estimate contributed by position `z` of `text`
(the body of the inner `while` loops at src/preprocess.ts lines
372-382 and 441-451). -/
def widthAt (offset : Nat) (text : List Nat) (z : Nat) : Nat :=
  match text[z]? with
  | none => 1
  | some u =>
    if 0xD800 ≤ u ∧ u < 0xE000 then 1
    else if u < 0x80 then 1
    else offset

/-- The walk loop: `while (count < target) { count += widthAt z; z++ }`,
returning the final `z`.  Each iteration adds at least 1 to `count`
whenever `offset ≥ 1` (the source only ever uses 2 or 3), so `target`
iterations of fuel always suffice. -/
def walkGo (offset : Nat) (text : List Nat) (target : Nat) :
    Nat → Nat → Nat → Nat
  | 0, z, _ => z
  | fuel + 1, z, count =>
    if count < target then
      walkGo offset text target fuel (z + 1) (count + widthAt offset text z)
    else z

/-- Decoded-character count `z` produced by the byte-width walk with
byte budget `target`. -/
def walk (offset : Nat) (text : List Nat) (target : Nat) : Nat :=
  walkGo offset text target target 0 0

/-! ## DBF attribute parser (DBFParser.parse, src/preprocess.ts 305-468) -/

/-- The binary-derived portion of one field descriptor
(src/preprocess.ts lines 399-418): everything except `name`, which is
taken from the decoded text. -/
structure BinField where
  ftype : Nat
  fieldLength : Nat
  workAreaId : Nat
  setFieldFlag : Nat
  indexFieldFlag : Nat
  deriving DecidableEq, Repr

/-- One entry of `dbf.fields`: the text-derived `name`
(`charString[nameIndex++]`, possibly JS `undefined` when the walk
produced fewer names than there are descriptors, hence `Option`)
plus the binary descriptor bytes. -/
structure DBFField where
  name : Option (List Nat)
  ftype : Nat
  fieldLength : Nat
  workAreaId : Nat
  setFieldFlag : Nat
  indexFieldFlag : Nat
  deriving DecidableEq, Repr

/-- A decoded attribute value: kept as a string, or flagged as a
scientific-notation number (handed to `parseFloat` in the source,
src/preprocess.ts lines 457-461; the numeric conversion is external,
so the raw text is retained). -/
inductive DBFValue where
  | str (s : List Nat)
  | num (raw : List Nat)
  deriving DecidableEq, Repr

/-- One attribute record: the `record[field.name] = value` assignments
in file order. -/
def AttributeRecord : Type := List (Option (List Nat) × DBFValue)

instance : DecidableEq AttributeRecord := by
  unfold AttributeRecord
  infer_instance

/-- The model of the parsed `DBFFile` (text-relevant fields). -/
structure DBFFileModel where
  numberOfRecords : Int
  fields : List DBFField
  records : List AttributeRecord

/-- Field-name header segment and final `offset`
(src/preprocess.ts lines 313, 355-364): split the decoded text on
`"\r"`; with more than two segments, drop the last, re-join and cut
the 32 decoded characters of the binary header; otherwise take the
first segment, cut 32, and force `offset = 2`. -/
def headerSegAndOffset (isBig5 : Bool) (response : List Nat) :
    List Nat × Nat :=
  let offset0 := if isBig5 then 2 else 3
  let parts := splitCR response
  if parts.length > 2 then ((joinCR parts.dropLast).drop 32, offset0)
  else ((parts.headD []).drop 32, 2)

/-- The field-name loop (src/preprocess.ts lines 367-386).  Returns
the collected `charString` entries and the final value of the
`responseHeader` variable.  Note that the walk result `z` is computed
by the source and then never used: the pushed name is always
`responseHeader.slice(0, 10)` with NUL bytes stripped, and the cursor
always advances by 32. -/
def nameLoopGo (offset : Nat) : Nat → List Nat → List (List Nat) × List Nat
  | 0, hdr => ([], hdr)
  | fuel + 1, hdr =>
    if hdr.length = 0 then ([], hdr)
    else
      let _z := walk offset hdr 10
      let name := (hdr.take 10).filter (fun c => c ≠ 0)
      let rest := nameLoopGo offset fuel (hdr.drop 32)
      (name :: rest.1, rest.2)

/-- Entry point of the name loop; each iteration of a nonempty header
drops 32 ≥ 1 characters, so `hdr.length` iterations always reach the
loop exit. -/
def nameLoop (offset : Nat) (hdr : List Nat) :
    List (List Nat) × List Nat :=
  nameLoopGo offset hdr.length hdr

/-- Pair each binary descriptor with `charString[nameIndex++]`
(src/preprocess.ts lines 389-424, the text-relevant effect). -/
def attachNames (names : List (List Nat)) : Nat → List BinField → List DBFField
  | _, [] => []
  | i, bf :: rest =>
    { name := names[i]?, ftype := bf.ftype, fieldLength := bf.fieldLength,
      workAreaId := bf.workAreaId, setFieldFlag := bf.setFieldFlag,
      indexFieldFlag := bf.indexFieldFlag } :: attachNames names (i + 1) rest

/-- Turn a sliced raw value into the stored record value
(src/preprocess.ts lines 453-461): strip NUL bytes, trim whitespace,
and flag scientific notation. -/
def fieldValue (raw : List Nat) : DBFValue :=
  let v := jsTrim (raw.filter (fun c => c ≠ 0))
  if isSciNotation v then DBFValue.num v else DBFValue.str v

/-- The per-record field loop (src/preprocess.ts lines 437-462).
`hdrRem` is the value of the `responseHeader` variable at that point
(the leftover of `nameLoop`): the width walk measures characters of
`hdrRem`, not of the record text.  Returns the record entries and the
remaining record text. -/
def fieldsLoop (offset : Nat) (hdrRem : List Nat) :
    List DBFField → List Nat → AttributeRecord × List Nat
  | [], text => ([], text)
  | f :: fs, text =>
    let z := walk offset hdrRem f.fieldLength
    let v := fieldValue (text.take z)
    let r := fieldsLoop offset hdrRem fs (text.drop z)
    ((f.name, v) :: r.1, r.2)

/-- The record loop (src/preprocess.ts lines 433-465): per record,
skip the 1-character deletion flag, then run the field loop. -/
def recordsLoop (offset : Nat) (hdrRem : List Nat) (fields : List DBFField) :
    Nat → List Nat → List AttributeRecord
  | 0, _ => []
  | n + 1, text =>
    let r := fieldsLoop offset hdrRem fields (text.drop 1)
    r.1 :: recordsLoop offset hdrRem fields n r.2

/-- `DBFParser.parse` (src/preprocess.ts lines 305-468), text side.
`isBig5` models `/big5/i.test(encoding)`; `numberOfRecords` and
`fieldInfos` are the values the binary reads at lines 338 and 391-424
produce.  The record body is read from the last `"\r"` segment of the
decoded text (line 430). -/
def DBFParse (isBig5 : Bool) (response : List Nat)
    (numberOfRecords : Int) (fieldInfos : List BinField) : DBFFileModel :=
  let ho := headerSegAndOffset isBig5 response
  let offset := ho.2
  let ns := nameLoop offset ho.1
  let fields := attachNames ns.1 0 fieldInfos
  let responseText := (splitCR response).getLastD []
  let records := recordsLoop offset ns.2 fields numberOfRecords.toNat responseText
  { numberOfRecords := numberOfRecords, fields := fields, records := records }

/-! ### Claim-shaped variants of the DBF text walk

For the refinement claims C1 and C2, a second definition follows the
spec's words so it can be compared against the source embedding. -/

/-- Modelled from the spec (claim C1): the per-record field loop as the
spec describes it — the byte-width walk measured "against the decoded
text stream" of the current record, i.e. against the remaining record
text, then slicing exactly that many decoded characters. -/
def specFieldsLoopC1 (offset : Nat) :
    List DBFField → List Nat → AttributeRecord × List Nat
  | [], text => ([], text)
  | f :: fs, text =>
    let z := walk offset text f.fieldLength
    let v := fieldValue (text.take z)
    let r := specFieldsLoopC1 offset fs (text.drop z)
    ((f.name, v) :: r.1, r.2)

/-- Modelled from the spec (claim C1): record loop over `specFieldsLoopC1`. -/
def specRecordsLoopC1 (offset : Nat) (fields : List DBFField) :
    Nat → List Nat → List AttributeRecord
  | 0, _ => []
  | n + 1, text =>
    let r := specFieldsLoopC1 offset fields (text.drop 1)
    r.1 :: specRecordsLoopC1 offset fields n r.2

/-- Modelled from the spec (claim C1): `DBFParser.parse` with the
record-value walk running against the current record's text. -/
def DBFParseSpecC1 (isBig5 : Bool) (response : List Nat)
    (numberOfRecords : Int) (fieldInfos : List BinField) : DBFFileModel :=
  let ho := headerSegAndOffset isBig5 response
  let offset := ho.2
  let ns := nameLoop offset ho.1
  let fields := attachNames ns.1 0 fieldInfos
  let responseText := (splitCR response).getLastD []
  let records := specRecordsLoopC1 offset fields numberOfRecords.toNat responseText
  { numberOfRecords := numberOfRecords, fields := fields, records := records }

/-- Modelled from the spec (claim C2): the field-name loop as the spec
describes it — slice off exactly the walk-computed count `z` of decoded
characters as the field name (NUL bytes stripped). -/
def specNameLoopC2Go (offset : Nat) : Nat → List Nat → List (List Nat) × List Nat
  | 0, hdr => ([], hdr)
  | fuel + 1, hdr =>
    if hdr.length = 0 then ([], hdr)
    else
      let z := walk offset hdr 10
      let name := (hdr.take z).filter (fun c => c ≠ 0)
      let rest := specNameLoopC2Go offset fuel (hdr.drop 32)
      (name :: rest.1, rest.2)

/-- Entry point of the claim-C2 name loop. -/
def specNameLoopC2 (offset : Nat) (hdr : List Nat) :
    List (List Nat) × List Nat :=
  specNameLoopC2Go offset hdr.length hdr

/-- Modelled from the spec (claim C2): `DBFParser.parse` with field
names sliced at the walk-computed count. -/
def DBFParseSpecC2 (isBig5 : Bool) (response : List Nat)
    (numberOfRecords : Int) (fieldInfos : List BinField) : DBFFileModel :=
  let ho := headerSegAndOffset isBig5 response
  let offset := ho.2
  let ns := specNameLoopC2 offset ho.1
  let fields := attachNames ns.1 0 fieldInfos
  let responseText := (splitCR response).getLastD []
  let records := recordsLoop offset ns.2 fields numberOfRecords.toNat responseText
  { numberOfRecords := numberOfRecords, fields := fields, records := records }

/-! ### Plain forms established by the corrected claims -/

/-- Field names the source actually produces: the first 10 decoded
characters of each successive 32-character block, NUL bytes stripped. -/
def plainNamesGo : Nat → List Nat → List (List Nat)
  | 0, _ => []
  | fuel + 1, hdr =>
    if hdr.length = 0 then []
    else ((hdr.take 10).filter (fun c => c ≠ 0)) :: plainNamesGo fuel (hdr.drop 32)

/-- Entry point of the plain name chunking. -/
def plainNames (hdr : List Nat) : List (List Nat) :=
  plainNamesGo hdr.length hdr

/-- Record values the source actually produces: exactly
`field.fieldLength` decoded characters per field. -/
def plainFieldsLoop : List DBFField → List Nat → AttributeRecord × List Nat
  | [], text => ([], text)
  | f :: fs, text =>
    let v := fieldValue (text.take f.fieldLength)
    let r := plainFieldsLoop fs (text.drop f.fieldLength)
    ((f.name, v) :: r.1, r.2)

/-- Record loop over `plainFieldsLoop`. -/
def plainRecordsLoop (fields : List DBFField) :
    Nat → List Nat → List AttributeRecord
  | 0, _ => []
  | n + 1, text =>
    let r := plainFieldsLoop fields (text.drop 1)
    r.1 :: plainRecordsLoop fields n r.2

/-! ## SHP geometry parser (SHPParser, src/preprocess.ts 98-262) -/

/-- Errors the SHP decoding path can produce.  The source throws plain
JS `Error`s distinguished by their message (plus `RangeError` from
`DataView` reads); the constructors carry exactly the data those
messages embed. -/
inductive JsError where
  /-- `throw new Error(...)` for a malformed structure: bad magic
  (src/preprocess.ts line 120) or unknown shape-type code (line 259). -/
  | formatError (msg : String)
  /-- `Shape type not supported: code (name)` (src/preprocess.ts
  lines 252-256). -/
  | unsupportedShape (code : Int) (name : String)
  /-- The re-thrown wrapper `Shape parsing error: ... (record n)`
  (src/preprocess.ts line 177). -/
  | recordError (number : Int) (inner : JsError)
  /-- `RangeError` from an out-of-bounds `DataView` read. -/
  | rangeError
  /-- Marker for a non-terminating record loop (`idx` fails to
  advance); the JS source would hang. -/
  | outOfFuel
  deriving DecidableEq, Repr

/-- `dv.getUint8(i)`: a single byte, `RangeError` out of range
(including the negative indices JS rejects). -/
def getU8 (b : List Nat) (i : Int) : Except JsError Nat :=
  if i < 0 then .error .rangeError
  else
    match b[i.toNat]? with
    | some v => .ok v
    | none => .error .rangeError

/-- Big-endian unsigned 32-bit read. -/
def getU32BE (b : List Nat) (i : Int) : Except JsError Nat := do
  let b0 ← getU8 b i
  let b1 ← getU8 b (i + 1)
  let b2 ← getU8 b (i + 2)
  let b3 ← getU8 b (i + 3)
  pure (((b0 * 256 + b1) * 256 + b2) * 256 + b3)

/-- Little-endian unsigned 32-bit read. -/
def getU32LE (b : List Nat) (i : Int) : Except JsError Nat := do
  let b0 ← getU8 b i
  let b1 ← getU8 b (i + 1)
  let b2 ← getU8 b (i + 2)
  let b3 ← getU8 b (i + 3)
  pure (((b3 * 256 + b2) * 256 + b1) * 256 + b0)

/-- Two's-complement reinterpretation of an unsigned 32-bit value. -/
def toInt32 (u : Nat) : Int :=
  if u < 2 ^ 31 then (u : Int) else (u : Int) - 2 ^ 32

/-- `dv.getInt32(i, false)`. -/
def getInt32BE (b : List Nat) (i : Int) : Except JsError Int :=
  (getU32BE b i).map toInt32

/-- `dv.getInt32(i, true)`. -/
def getInt32LE (b : List Nat) (i : Int) : Except JsError Int :=
  (getU32LE b i).map toInt32

/-- `dv.getFloat64(i, true)`: the 64-bit pattern, read little-endian. -/
def getF64LE (b : List Nat) (i : Int) : Except JsError Nat := do
  let b0 ← getU8 b i
  let b1 ← getU8 b (i + 1)
  let b2 ← getU8 b (i + 2)
  let b3 ← getU8 b (i + 3)
  let b4 ← getU8 b (i + 4)
  let b5 ← getU8 b (i + 5)
  let b6 ← getU8 b (i + 6)
  let b7 ← getU8 b (i + 7)
  pure (((((((b7 * 256 + b6) * 256 + b5) * 256 + b4) * 256 + b3) * 256
      + b2) * 256 + b1) * 256 + b0)

/-- The `parts` read loop (src/preprocess.ts lines 224-228):
`count` consecutive little-endian int32 values from `i`. -/
def readInt32s (b : List Nat) (i : Int) : Nat → Except JsError (List Int)
  | 0 => .ok []
  | n + 1 => do
    let v ← getInt32LE b i
    let rest ← readInt32s b (i + 4) n
    pure (v :: rest)

/-- The `points` read loop (src/preprocess.ts lines 230-234):
`count` consecutive little-endian float64 patterns from `i`. -/
def readF64s (b : List Nat) (i : Int) : Nat → Except JsError (List Nat)
  | 0 => .ok []
  | n + 1 => do
    let v ← getF64LE b i
    let rest ← readF64s b (i + 8) n
    pure (v :: rest)

/-- The `SHPShape` tagged union (src/preprocess.ts lines 32-45).
`poly` covers shape types 3 (Polyline), 5 (Polygon) and 8 (MultiPoint),
storing the type tag like the source does. -/
inductive SHPShape where
  | null
  | point (x y : Nat)
  | poly (shapeType : Int) (minX minY maxX maxY : Nat)
      (parts : List Int) (points : List Nat)
  deriving DecidableEq, Repr

/-- The shape-type tag of a decoded shape (`shape.type`). -/
def shapeTag : SHPShape → Int
  | .null => 0
  | .point _ _ => 1
  | .poly t _ _ _ _ _ _ => t

/-- One `.shp` record (src/preprocess.ts lines 47-51). -/
structure SHPRecordModel where
  number : Int
  length : Int
  shape : SHPShape
  deriving DecidableEq, Repr

/-- The parsed `SHPFile` (src/preprocess.ts lines 53-69; `fileName`
is the caller-supplied URL and is omitted). -/
structure SHPFileModel where
  fileCode : Int
  wordLength : Int
  byteLength : Int
  version : Int
  shapeType : Int
  minX : Nat
  minY : Nat
  maxX : Nat
  maxY : Nat
  minZ : Nat
  maxZ : Nat
  minM : Nat
  maxM : Nat
  records : List SHPRecordModel
  deriving DecidableEq, Repr

/-- The name table of `NotSupportedShapeType` (src/preprocess.ts lines
21-31), i.e. the TS enum's reverse mapping used at line 254. -/
def notSupportedShapeName (c : Int) : Option String :=
  if c = 11 then some "PointZ"
  else if c = 13 then some "PolylineZ"
  else if c = 15 then some "PolygonZ"
  else if c = 18 then some "MultiPointZ"
  else if c = 21 then some "PointM"
  else if c = 23 then some "PolylineM"
  else if c = 25 then some "PolygonM"
  else if c = 28 then some "MultiPointM"
  else if c = 31 then some "MultiPatch"
  else none

/-- `SHPParser.parseShape` (src/preprocess.ts lines 192-261).  The
`length` argument exists in the source signature but is unused by the
body. -/
def parseShape (b : List Nat) (idx : Int) (_length : Int) :
    Except JsError SHPShape := do
  let shapeType ← getInt32LE b idx
  if shapeType = 0 then
    pure SHPShape.null
  else if shapeType = 1 then do
    let x ← getF64LE b (idx + 4)
    let y ← getF64LE b (idx + 12)
    pure (SHPShape.point x y)
  else if shapeType = 8 ∨ shapeType = 3 ∨ shapeType = 5 then do
    let minX ← getF64LE b (idx + 4)
    let minY ← getF64LE b (idx + 12)
    let maxX ← getF64LE b (idx + 20)
    let maxY ← getF64LE b (idx + 28)
    let partCount ← getInt32LE b (idx + 36)
    let pointCount ← getInt32LE b (idx + 40)
    if partCount < 0 then throw .rangeError    -- new Int32Array(partCount)
    let parts ← readInt32s b (idx + 44) partCount.toNat
    if pointCount < 0 then throw .rangeError   -- new Float64Array(pointCount * 2)
    let points ← readF64s b (idx + 44 + 4 * partCount) (pointCount * 2).toNat
    pure (SHPShape.poly shapeType minX minY maxX maxY parts points)
  else if shapeType = 11 ∨ shapeType = 13 ∨ shapeType = 15 ∨ shapeType = 18 ∨
      shapeType = 21 ∨ shapeType = 23 ∨ shapeType = 25 ∨ shapeType = 28 ∨
      shapeType = 31 then
    throw (.unsupportedShape shapeType
      ((notSupportedShapeName shapeType).getD "Unknown"))
  else
    throw (.formatError
      (toString "Unknown shape type at " ++ toString idx ++ ": " ++
        toString shapeType))

/-- The record loop of `SHPParser.parse` (src/preprocess.ts lines
166-187): `while (idx < byteLength)` read the big-endian record
number and content length, parse the shape at `idx + 8`, then advance
the cursor to `idx + 8 + length * 2`.  `fuel` bounds the iteration
count; running out models the hang a non-advancing `idx` causes in
the source. -/
def parseRecords (b : List Nat) (byteLength : Int) :
    Nat → Int → Except JsError (List SHPRecordModel)
  | 0, idx => if idx < byteLength then .error .outOfFuel else .ok []
  | fuel + 1, idx =>
    if idx < byteLength then do
      let number ← getInt32BE b idx
      let length ← getInt32BE b (idx + 4)
      let shape ← (parseShape b (idx + 8) length).mapError
        (JsError.recordError number)
      let rest ← parseRecords b byteLength fuel (idx + 8 + length * 2)
      pure ({ number := number, length := length, shape := shape } :: rest)
    else .ok []

/-- `SHPParser.parse` (src/preprocess.ts lines 113-190). -/
def SHPparse (b : List Nat) : Except JsError SHPFileModel := do
  let fileCode ← getInt32BE b 0
  if fileCode ≠ 0x0000270a then
    throw (.formatError (toString "Unknown file code: " ++ toString fileCode))
  let wordLength ← getInt32BE b 24
  let byteLength := wordLength * 2
  let version ← getInt32LE b 28
  let shapeType ← getInt32LE b 32
  let minX ← getF64LE b 36
  let minY ← getF64LE b 44
  let maxX ← getF64LE b 52
  let maxY ← getF64LE b 60
  let minZ ← getF64LE b 68
  let maxZ ← getF64LE b 76
  let minM ← getF64LE b 84
  let maxM ← getF64LE b 92
  let records ← parseRecords b byteLength byteLength.toNat 100
  pure { fileCode := fileCode, wordLength := wordLength,
         byteLength := byteLength, version := version,
         shapeType := shapeType,
         minX := minX, minY := minY, maxX := maxX, maxY := maxY,
         minZ := minZ, maxZ := maxZ, minM := minM, maxM := maxM,
         records := records }

/-! ### A reference encoder for the fixed `.shp` binary layout (claim C6) -/

/-- 4 bytes, big-endian. -/
def bytesU32BE (n : Nat) : List Nat :=
  [n / 2 ^ 24 % 256, n / 2 ^ 16 % 256, n / 2 ^ 8 % 256, n % 256]

/-- 4 bytes, little-endian. -/
def bytesU32LE (n : Nat) : List Nat :=
  [n % 256, n / 2 ^ 8 % 256, n / 2 ^ 16 % 256, n / 2 ^ 24 % 256]

/-- Little-endian two's-complement int32 bytes. -/
def bytesI32LE (v : Int) : List Nat := bytesU32LE (v % (2 ^ 32 : Int)).toNat

/-- 8 bytes, little-endian (a float64 bit pattern). -/
def bytesF64LE (p : Nat) : List Nat :=
  [p % 256, p / 2 ^ 8 % 256, p / 2 ^ 16 % 256, p / 2 ^ 24 % 256,
   p / 2 ^ 32 % 256, p / 2 ^ 40 % 256, p / 2 ^ 48 % 256, p / 2 ^ 56 % 256]

/-- Payload bytes of one shape, per the layout `parseShape` reads. -/
def encodeShape : SHPShape → List Nat
  | .null => bytesI32LE 0
  | .point x y => bytesI32LE 1 ++ bytesF64LE x ++ bytesF64LE y
  | .poly t minX minY maxX maxY parts points =>
    bytesI32LE t ++ bytesF64LE minX ++ bytesF64LE minY ++
    bytesF64LE maxX ++ bytesF64LE maxY ++
    bytesI32LE parts.length ++ bytesI32LE (points.length / 2) ++
    parts.flatMap bytesI32LE ++ points.flatMap bytesF64LE

/-- Declared content length of a shape payload, in 16-bit words. -/
def contentWords (s : SHPShape) : Nat := (encodeShape s).length / 2

/-- One encoded record: big-endian record number, big-endian content
length in words, then the payload. -/
def encodeRecord (num : Nat) (s : SHPShape) : List Nat :=
  bytesU32BE num ++ bytesU32BE (contentWords s) ++ encodeShape s

/-- Record sequence numbered from `k`. -/
def encodeRecords : Nat → List SHPShape → List Nat
  | _, [] => []
  | k, s :: rest => encodeRecord k s ++ encodeRecords (k + 1) rest

/-- Total declared length of the encoded file, in 16-bit words. -/
def totalWords (shapes : List SHPShape) : Nat :=
  (100 + (encodeRecords 1 shapes).length) / 2

/-- The 100-byte file header: magic `0x0000270a`, 20 unused bytes,
big-endian total word length, little-endian version 1000, little-endian
shape type 0, eight zero float64 bounds. -/
def encodeHeader (shapes : List SHPShape) : List Nat :=
  bytesU32BE 0x0000270a ++ List.replicate 20 0 ++
  bytesU32BE (totalWords shapes) ++ bytesI32LE 1000 ++ bytesI32LE 0 ++
  bytesF64LE 0 ++ bytesF64LE 0 ++ bytesF64LE 0 ++ bytesF64LE 0 ++
  bytesF64LE 0 ++ bytesF64LE 0 ++ bytesF64LE 0 ++ bytesF64LE 0

/-- A full encoded `.shp` buffer for a list of geometries. -/
def encodeShp (shapes : List SHPShape) : List Nat :=
  encodeHeader shapes ++ encodeRecords 1 shapes

/-- Well-formedness of a geometry for the encoder: type tags from the
supported set, stored patterns within 64 bits, array lengths and part
values within int32 range, and an interleaved (hence even-length)
point array. -/
def WFShape : SHPShape → Prop
  | .null => True
  | .point x y => x < 2 ^ 64 ∧ y < 2 ^ 64
  | .poly t minX minY maxX maxY parts points =>
    (t = 3 ∨ t = 5 ∨ t = 8) ∧
    minX < 2 ^ 64 ∧ minY < 2 ^ 64 ∧ maxX < 2 ^ 64 ∧ maxY < 2 ^ 64 ∧
    parts.length < 2 ^ 31 ∧
    (∀ v ∈ parts, -(2 ^ 31) ≤ v ∧ v < 2 ^ 31) ∧
    points.length % 2 = 0 ∧ points.length / 2 < 2 ^ 31 ∧
    (∀ p ∈ points, p < 2 ^ 64)

/-- The records `parse` is expected to return for an encoded file:
consecutive numbers from `k`, the declared content length, the source
geometry. -/
def expectedRecords : Nat → List SHPShape → List SHPRecordModel
  | _, [] => []
  | k, s :: rest =>
    { number := (k : Int), length := (contentWords s : Int), shape := s } ::
    expectedRecords (k + 1) rest

/-- The full parsed file expected for an encoded buffer. -/
def expectedFile (shapes : List SHPShape) : SHPFileModel :=
  { fileCode := 0x0000270a,
    wordLength := (totalWords shapes : Int),
    byteLength := (totalWords shapes : Int) * 2,
    version := 1000, shapeType := 0,
    minX := 0, minY := 0, maxX := 0, maxY := 0,
    minZ := 0, maxZ := 0, minM := 0, maxM := 0,
    records := expectedRecords 1 shapes }

/-! ## GeoJSON assembly (toGeojson, src/preview.ts 133-233)

The external proj4 transform is an abstract function
`T : Nat → Nat → Nat × Nat` on float64 patterns.  Attribute records are
an abstract list `dbfRecords : List A`: `toGeojson` only ever passes
`dbf.records[i]` through to `properties`, where an out-of-range index
yields JS `undefined` (`Option.none` here). -/

/-- The JS `undefined` value flowing out of a `Float64Array` read past
the end (src/preview.ts reads `points[j + 1]`, and ring bounds may
also exceed the array); distinct from every real 64-bit pattern. -/
def jsUndefined : Nat := 2 ^ 64

/-- `TransCoord` (src/preview.ts lines 133-140): apply the active
proj4 converter to one coordinate pair. -/
def TransCoord (T : Nat → Nat → Nat × Nat) (x y : Nat) : Nat × Nat := T x y

/-- A GeoJSON geometry as `toGeojson` builds it. -/
inductive GeoGeometry where
  | point (c : Nat × Nat)
  | lineString (cs : List (Nat × Nat))
  | multiPoint (cs : List (Nat × Nat))
  | polygon (rings : List (List (Nat × Nat)))
  deriving DecidableEq, Repr

/-- One GeoJSON feature (`properties` is `dbf.records[i]`, possibly
`undefined`). -/
structure FeatureModel (A : Type) where
  geometry : GeoGeometry
  properties : Option A

/-- The produced FeatureCollection: `bbox` (four scalars) and the
features array. -/
structure FCModel (A : Type) where
  bbox : List Nat
  features : List (FeatureModel A)

/-- `points[j]` on a `Float64Array`, JS semantics: out-of-range
(or negative) indices read `undefined`. -/
def pointAt (points : List Nat) (j : Int) : Nat :=
  if j < 0 then jsUndefined else points.getD j.toNat jsUndefined

/-- The coordinate loop for Polyline/MultiPoint (src/preview.ts lines
184-189): `for (j = 0; j < points.length; j += 2)` push
`TransCoord(points[j], points[j+1])`.  An odd-length array makes the
final step pair the last element with `undefined`, exactly as the JS
read does. -/
def coordPairs (T : Nat → Nat → Nat × Nat) : List Nat → List (Nat × Nat)
  | [] => []
  | [x] => [TransCoord T x jsUndefined]
  | x :: y :: rest => TransCoord T x y :: coordPairs T rest

/-- One polygon ring (src/preview.ts lines 208-213): `for (j = start;
j < end; j += 2)` push `TransCoord(points[j], points[j+1])`; the
iteration count of the step-2 loop is `⌈(end - start) / 2⌉`. -/
def ringPoints (T : Nat → Nat → Nat × Nat) (points : List Nat)
    (start endI : Int) : List (Nat × Nat) :=
  (List.range (((endI - start).toNat + 1) / 2)).map fun (i : Nat) =>
    let j : Int := start + 2 * (i : Int)
    TransCoord T (pointAt points j) (pointAt points (j + 1))

/-- The ring loop (src/preview.ts lines 205-216):
`start = parts[p] * 2`, `end = (parts[p + 1] || points.length / 2) * 2`.
The `||` makes a *zero* `parts[p + 1]` (not only a missing one) fall
back to end-of-points; `(points.length / 2) * 2` recovers
`points.length` exactly in JS float arithmetic. -/
def polygonRings (T : Nat → Nat → Nat × Nat) (parts : List Int)
    (points : List Nat) : List (List (Nat × Nat)) :=
  (List.range parts.length).map fun p =>
    let start : Int := parts.getD p 0 * 2
    let endI : Int :=
      match parts[p + 1]? with
      | some v => if v = 0 then (points.length : Int) else v * 2
      | none => (points.length : Int)
    ringPoints T points start endI

/-- The `switch (type)` of src/preview.ts lines 170-227, producing the
feature geometry or throwing `Unsupported shape type` (the `default`
arm — which a decoded Null shape, type 0, also reaches). -/
def shapeGeometry (T : Nat → Nat → Nat × Nat) (s : SHPShape) :
    Except String GeoGeometry :=
  match s with
  | .point x y => .ok (.point (TransCoord T x y))
  | .poly t _ _ _ _ parts points =>
    if t = 3 then .ok (.lineString (coordPairs T points))
    else if t = 8 then .ok (.multiPoint (coordPairs T points))
    else if t = 5 then .ok (.polygon (polygonRings T parts points))
    else .error (toString "Unsupported shape type: " ++ toString t)
  | .null => .error (toString "Unsupported shape type: " ++ toString (0 : Int))

/-- The `shp.records.forEach` loop (src/preview.ts lines 160-230):
feature `i` pairs the assembled geometry with `dbf.records[i]`. -/
def buildFeatures (T : Nat → Nat → Nat × Nat) (dbfRecords : List A) :
    List SHPRecordModel → Nat → Except String (List (FeatureModel A))
  | [], _ => .ok []
  | r :: rest, i => do
    let g ← shapeGeometry T r.shape
    let fs ← buildFeatures T dbfRecords rest (i + 1)
    pure ({ geometry := g, properties := dbfRecords[i]? } :: fs)

/-- `toGeojson` (src/preview.ts lines 142-233): bbox from the two
reprojected header corners, then one feature per shape record. -/
def toGeojson (T : Nat → Nat → Nat × Nat) (shp : SHPFileModel)
    (dbfRecords : List A) : Except String (FCModel A) := do
  let features ← buildFeatures T dbfRecords shp.records 0
  pure { bbox := [(TransCoord T shp.minX shp.minY).1,
                  (TransCoord T shp.minX shp.minY).2,
                  (TransCoord T shp.maxX shp.maxY).1,
                  (TransCoord T shp.maxX shp.maxY).2],
         features := features }

/-! ### Spec-shaped polygon rings (claim C3) and transform mapping (claim C8) -/

/-- Interleaved x,y array to coordinate pairs (the decoded point
list). -/
def pairsOf : List Nat → List (Nat × Nat)
  | x :: y :: rest => (x, y) :: pairsOf rest
  | _ => []

/-- Modelled from the spec (claim C3): ring `k` of a Polygon is the
point run from index `parts[k]` (inclusive) to `parts[k+1]`
(exclusive), the last ring extending to the end of the point array,
each point reprojected. -/
def specPolygonRings (T : Nat → Nat → Nat × Nat) (parts : List Int)
    (points : List Nat) : List (List (Nat × Nat)) :=
  let pts := (pairsOf points).map fun c => TransCoord T c.1 c.2
  (List.range parts.length).map fun k =>
    let start := (parts.getD k 0).toNat
    let stop :=
      match parts[k + 1]? with
      | some v => v.toNat
      | none => pts.length
    (pts.take stop).drop start

/-- Map a transform over a built geometry (for the naturality form of
claim C8). -/
def mapGeometry (T : Nat → Nat → Nat × Nat) : GeoGeometry → GeoGeometry
  | .point c => .point (T c.1 c.2)
  | .lineString cs => .lineString (cs.map fun c => T c.1 c.2)
  | .multiPoint cs => .multiPoint (cs.map fun c => T c.1 c.2)
  | .polygon rs => .polygon (rs.map fun r => r.map fun c => T c.1 c.2)

/-- Map a transform over a feature. -/
def mapFeature (T : Nat → Nat → Nat × Nat) (f : FeatureModel A) :
    FeatureModel A :=
  { geometry := mapGeometry T f.geometry, properties := f.properties }

/-- Map a transform over a feature collection (the bbox holds two
corner pairs). -/
def mapFC (T : Nat → Nat → Nat × Nat) (fc : FCModel A) : FCModel A :=
  { bbox :=
      match fc.bbox with
      | [a, b, c, d] => [(T a b).1, (T a b).2, (T c d).1, (T c d).2]
      | l => l,
    features := fc.features.map (mapFeature T) }

/-- The identity transform (a point already in the target CRS). -/
def idT : Nat → Nat → Nat × Nat := fun x y => (x, y)

/-- Decidable equality of parse results (for evaluating the model at
concrete inputs). -/
instance {e a : Type _} [DecidableEq e] [DecidableEq a] :
    DecidableEq (Except e a) := fun x y =>
  match x, y with
  | .error u, .error v =>
    if h : u = v then isTrue (h ▸ rfl)
    else isFalse fun hh => h (Except.error.inj hh)
  | .error _, .ok _ => isFalse fun hh => Except.noConfusion hh
  | .ok _, .error _ => isFalse fun hh => Except.noConfusion hh
  | .ok u, .ok v =>
    if h : u = v then isTrue (h ▸ rfl)
    else isFalse fun hh => h (Except.ok.inj hh)

end Shp2GeoJson

namespace Shp2GeoJson

/-! ## Lemmas about the DBF byte-width walk -/

theorem widthAt_nil (offset z : Nat) : widthAt offset [] z = 1 := by
  simp [widthAt]

theorem walkGo_nil (offset target : Nat) :
    ∀ fuel z count, target ≤ count + fuel →
      walkGo offset [] target fuel z count = z + (target - count) := by
  intro fuel
  induction fuel with
  | zero =>
    intro z count h
    simp [walkGo]
    omega
  | succ fuel ih =>
    intro z count h
    rw [walkGo]
    by_cases hc : count < target
    · simp only [hc, if_true, widthAt_nil]
      rw [ih (z + 1) (count + 1) (by omega)]
      omega
    · simp only [hc, if_false]
      omega

/-- With the header text exhausted, every walk step contributes 1, so
the walk returns its byte budget. -/
theorem walk_nil (offset target : Nat) : walk offset [] target = target := by
  rw [walk, walkGo_nil offset target target 0 0 (by omega)]
  omega

/-! ## Lemmas about the DBF loops -/

theorem nameLoopGo_snd (offset : Nat) :
    ∀ (fuel : Nat) (hdr : List Nat), hdr.length ≤ fuel →
      (nameLoopGo offset fuel hdr).2 = [] := by
  intro fuel
  induction fuel with
  | zero =>
    intro hdr h
    have hh : hdr = [] := List.length_eq_zero.mp (Nat.le_zero.mp h)
    subst hh
    rfl
  | succ fuel ih =>
    intro hdr h
    rw [nameLoopGo]
    by_cases hh : hdr.length = 0
    · simp only [hh, if_true]
      exact List.length_eq_zero.mp hh
    · simp only [hh, if_false]
      exact ih (hdr.drop 32) (by simp [List.length_drop]; omega)

theorem nameLoop_snd (offset : Nat) (hdr : List Nat) :
    (nameLoop offset hdr).2 = [] :=
  nameLoopGo_snd offset hdr.length hdr le_rfl

theorem nameLoopGo_fst (offset : Nat) :
    ∀ (fuel : Nat) (hdr : List Nat),
      (nameLoopGo offset fuel hdr).1 = plainNamesGo fuel hdr := by
  intro fuel
  induction fuel with
  | zero => intro hdr; rfl
  | succ fuel ih =>
    intro hdr
    rw [nameLoopGo, plainNamesGo]
    by_cases hh : hdr.length = 0
    · simp only [hh, if_true]
    · simp only [hh, if_false, ih]

theorem nameLoop_fst (offset : Nat) (hdr : List Nat) :
    (nameLoop offset hdr).1 = plainNames hdr :=
  nameLoopGo_fst offset hdr.length hdr

theorem fieldsLoop_nil_hdr (offset : Nat) :
    ∀ (fields : List DBFField) (text : List Nat),
      fieldsLoop offset [] fields text = plainFieldsLoop fields text := by
  intro fields
  induction fields with
  | nil => intro text; rfl
  | cons f fs ih =>
    intro text
    simp only [fieldsLoop, plainFieldsLoop, walk_nil, ih]

theorem recordsLoop_nil_hdr (offset : Nat) (fields : List DBFField) :
    ∀ (n : Nat) (text : List Nat),
      recordsLoop offset [] fields n text = plainRecordsLoop fields n text := by
  intro n
  induction n with
  | zero => intro text; rfl
  | succ n ih =>
    intro text
    simp only [recordsLoop, plainRecordsLoop, fieldsLoop_nil_hdr, ih]

theorem recordsLoop_length (offset : Nat) (hdr : List Nat)
    (fields : List DBFField) :
    ∀ (n : Nat) (text : List Nat),
      (recordsLoop offset hdr fields n text).length = n := by
  intro n
  induction n with
  | zero => intro text; rfl
  | succ n ih =>
    intro text
    simp only [recordsLoop, List.length_cons, ih]

/-! ## Claims C1, C2, C9 -/

/-- C1 (counterexample): the record-value walk is *not* performed
against the decoded text of the current record.  Concrete input: Big5
encoding, decoded text `"\r\r" ++ [A, 中, B, C]`, one record, one field
of declared byte length 2.  The walk the claim describes would count
the multi-byte `中` as 2 bytes and slice one decoded character; the
source slices two, because its walk reads the exhausted
`responseHeader` instead. -/
theorem c1_record_walk_counterexample :
    (DBFParse true [13, 13, 65, 0x4E2D, 66, 67] 1
        [⟨67, 2, 0, 0, 0⟩]).records ≠
      (DBFParseSpecC1 true [13, 13, 65, 0x4E2D, 66, 67] 1
        [⟨67, 2, 0, 0, 0⟩]).records := by
  decide

/-- C1 (amended): `DBFParser.parse` runs the byte-width walk against
the leftover field-name header text, which the name loop has exhausted
by the time records are parsed; every step therefore estimates one
byte, and each value is exactly the first `field.fieldLength` decoded
characters of the remaining record text (NUL bytes removed, whitespace
trimmed), the cursor advancing by the same count. -/
theorem c1_record_values :
    ∀ (isBig5 : Bool) (response : List Nat) (n : Int)
      (infos : List BinField),
      (DBFParse isBig5 response n infos).records =
        plainRecordsLoop (DBFParse isBig5 response n infos).fields n.toNat
          ((splitCR response).getLastD []) := by
  intro isBig5 response n infos
  simp only [DBFParse]
  rw [nameLoop_snd, recordsLoop_nil_hdr]

/-- C2 (counterexample): the field-name slice does *not* use the
walk-computed character count.  Concrete input: a single-segment
response (so `offset` becomes 2) whose header segment is
`[中, a, a, a, a, a, a, a, b, c]`: the walk reaches the 10-byte budget
after 9 decoded characters, but the source always slices 10. -/
theorem c2_field_name_counterexample :
    (DBFParse false
        (List.replicate 32 120 ++ [0x4E2D] ++ List.replicate 7 97 ++ [98, 99])
        0 [⟨67, 1, 0, 0, 0⟩]).fields ≠
      (DBFParseSpecC2 false
        (List.replicate 32 120 ++ [0x4E2D] ++ List.replicate 7 97 ++ [98, 99])
        0 [⟨67, 1, 0, 0, 0⟩]).fields := by
  decide

/-- C2 (amended): `DBFParser.parse` extracts each field name as the
first 10 decoded characters of the successive 32-character descriptor
blocks of the header-text segment, with NUL bytes stripped; the
byte-length-estimate walk is computed but its result is discarded. -/
theorem c2_field_names :
    ∀ (isBig5 : Bool) (response : List Nat) (n : Int)
      (infos : List BinField),
      (DBFParse isBig5 response n infos).fields =
        attachNames (plainNames (headerSegAndOffset isBig5 response).1) 0
          infos := by
  intro isBig5 response n infos
  simp only [DBFParse]
  rw [nameLoop_fst]

/-- C9: for every DBF input, `DBFParser.parse` produces exactly the
number of attribute records the header declares
(`DBFHeader.numberOfRecords`, here any non-negative declared count),
independent of the decoded record text. -/
theorem c9_record_count :
    ∀ (isBig5 : Bool) (response : List Nat) (n : Int)
      (infos : List BinField), 0 ≤ n →
      ((DBFParse isBig5 response n infos).records.length : Int) = n := by
  intro isBig5 response n infos hn
  simp only [DBFParse]
  rw [recordsLoop_length]
  exact Int.toNat_of_nonneg hn

/-- C9 (witness): two declared records over an empty decoded text
still yield two attribute records. -/
theorem c9_record_count_witness :
    (0 : Int) ≤ 2 ∧
      ((DBFParse false [] 2 [⟨67, 4, 0, 0, 0⟩]).records.length : Int) = 2 :=
  ⟨by decide, c9_record_count false [] 2 [⟨67, 4, 0, 0, 0⟩] (by decide)⟩

/-! ## Reduction helpers for the Except monad -/

theorem bind_ok_eq {e a b : Type _} (x : a) (f : a → Except e b) :
    (Except.ok x : Except e a) >>= f = f x := rfl

theorem bind_error_eq {e a b : Type _} (u : e) (f : a → Except e b) :
    (Except.error u : Except e a) >>= f = Except.error u := rfl

/-! ## Claims C4 and C5 -/

/-- C4: for every input buffer whose first four bytes read big-endian
are not the magic `0x0000270a`, `SHPParser.parse` fails with the
format error `Unknown file code` and returns no parsed result — in
particular no partial record list. -/
theorem c4_bad_magic :
    ∀ (b : List Nat) (c : Int), getInt32BE b 0 = .ok c → c ≠ 0x0000270a →
      SHPparse b =
        .error (.formatError (toString "Unknown file code: " ++ toString c)) := by
  intro b c h hc
  simp only [SHPparse, h, bind_ok_eq]
  simp only [hc, ite_false, if_neg, ne_eq, not_false_eq_true, ite_true]
  rfl

/-- C4 (witness): an all-zero four-byte buffer is rejected up front. -/
theorem c4_bad_magic_witness :
    getInt32BE [0, 0, 0, 0] 0 = .ok 0 ∧ (0 : Int) ≠ 0x0000270a ∧
      SHPparse [0, 0, 0, 0] =
        .error (.formatError (toString "Unknown file code: " ++ toString (0 : Int))) :=
  ⟨by decide, by decide, c4_bad_magic [0, 0, 0, 0] 0 (by decide) (by decide)⟩

/-- C5: a record whose little-endian shape-type code is one of the
Z/M/MultiPatch variants (11, 13, 15, 18, 21, 23, 25, 28, 31) makes
shape parsing fail with the unsupported-shape error carrying the
numeric code and its human-readable name (code 11 names `PointZ`), a
different constructor from the format error used for unrecognized
codes. -/
theorem c5_unsupported_shape :
    ∀ (b : List Nat) (idx len code : Int),
      getInt32LE b idx = .ok code →
      code ∈ ([11, 13, 15, 18, 21, 23, 25, 28, 31] : List Int) →
      parseShape b idx len =
          .error (.unsupportedShape code
            ((notSupportedShapeName code).getD "Unknown")) ∧
        notSupportedShapeName 11 = some "PointZ" ∧
        notSupportedShapeName 13 = some "PolylineZ" ∧
        notSupportedShapeName 15 = some "PolygonZ" ∧
        notSupportedShapeName 18 = some "MultiPointZ" ∧
        notSupportedShapeName 21 = some "PointM" ∧
        notSupportedShapeName 23 = some "PolylineM" ∧
        notSupportedShapeName 25 = some "PolygonM" ∧
        notSupportedShapeName 28 = some "MultiPointM" ∧
        notSupportedShapeName 31 = some "MultiPatch" ∧
        ∀ msg, JsError.unsupportedShape code
            ((notSupportedShapeName code).getD "Unknown") ≠
          .formatError msg := by
  intro b idx len code h hmem
  refine ⟨?_, by decide, by decide, by decide, by decide, by decide,
    by decide, by decide, by decide, by decide,
    fun msg hh => JsError.noConfusion hh⟩
  simp only [List.mem_cons, List.not_mem_nil, or_false] at hmem
  rcases hmem with rfl | rfl | rfl | rfl | rfl | rfl | rfl | rfl | rfl <;>
    · simp only [parseShape, h, bind_ok_eq]
      norm_num
      rfl

/-- C5 (witness): the concrete four-byte record `[11, 0, 0, 0]`. -/
theorem c5_unsupported_shape_witness :
    parseShape [11, 0, 0, 0] 0 0 = .error (.unsupportedShape 11 "PointZ") :=
  (c5_unsupported_shape [11, 0, 0, 0] 0 0 11 (by decide) (by decide)).1

/-! ## Byte-read lemmas for the encoder round trip (claim C6) -/

theorem bytesU32BE_length (n : Nat) : (bytesU32BE n).length = 4 := rfl

theorem bytesU32LE_length (n : Nat) : (bytesU32LE n).length = 4 := rfl

theorem bytesI32LE_length (v : Int) : (bytesI32LE v).length = 4 := rfl

theorem bytesF64LE_length (p : Nat) : (bytesF64LE p).length = 8 := rfl

theorem getU8_append (xs ys : List Nat) (j : Int) (hj : 0 ≤ j) :
    getU8 (xs ++ ys) ((xs.length : Int) + j) = getU8 ys j := by
  unfold getU8
  have h1 : ¬((xs.length : Int) + j < 0) := by omega
  have h2 : ¬(j < 0) := by omega
  simp only [h1, h2, if_false]
  have h3 : ((xs.length : Int) + j).toNat = xs.length + j.toNat := by omega
  rw [h3, List.getElem?_append_right (by omega)]
  have h4 : xs.length + j.toNat - xs.length = j.toNat := by omega
  rw [h4]

theorem getU32BE_append (xs ys : List Nat) (j : Int) (hj : 0 ≤ j) :
    getU32BE (xs ++ ys) ((xs.length : Int) + j) = getU32BE ys j := by
  unfold getU32BE
  have e1 : (xs.length : Int) + j + 1 = (xs.length : Int) + (j + 1) := by ring
  have e2 : (xs.length : Int) + j + 2 = (xs.length : Int) + (j + 2) := by ring
  have e3 : (xs.length : Int) + j + 3 = (xs.length : Int) + (j + 3) := by ring
  rw [e1, e2, e3, getU8_append xs ys j hj, getU8_append xs ys (j + 1) (by omega),
    getU8_append xs ys (j + 2) (by omega), getU8_append xs ys (j + 3) (by omega)]

theorem getU32LE_append (xs ys : List Nat) (j : Int) (hj : 0 ≤ j) :
    getU32LE (xs ++ ys) ((xs.length : Int) + j) = getU32LE ys j := by
  unfold getU32LE
  have e1 : (xs.length : Int) + j + 1 = (xs.length : Int) + (j + 1) := by ring
  have e2 : (xs.length : Int) + j + 2 = (xs.length : Int) + (j + 2) := by ring
  have e3 : (xs.length : Int) + j + 3 = (xs.length : Int) + (j + 3) := by ring
  rw [e1, e2, e3, getU8_append xs ys j hj, getU8_append xs ys (j + 1) (by omega),
    getU8_append xs ys (j + 2) (by omega), getU8_append xs ys (j + 3) (by omega)]

theorem getF64LE_append (xs ys : List Nat) (j : Int) (hj : 0 ≤ j) :
    getF64LE (xs ++ ys) ((xs.length : Int) + j) = getF64LE ys j := by
  unfold getF64LE
  have e1 : (xs.length : Int) + j + 1 = (xs.length : Int) + (j + 1) := by ring
  have e2 : (xs.length : Int) + j + 2 = (xs.length : Int) + (j + 2) := by ring
  have e3 : (xs.length : Int) + j + 3 = (xs.length : Int) + (j + 3) := by ring
  have e4 : (xs.length : Int) + j + 4 = (xs.length : Int) + (j + 4) := by ring
  have e5 : (xs.length : Int) + j + 5 = (xs.length : Int) + (j + 5) := by ring
  have e6 : (xs.length : Int) + j + 6 = (xs.length : Int) + (j + 6) := by ring
  have e7 : (xs.length : Int) + j + 7 = (xs.length : Int) + (j + 7) := by ring
  rw [e1, e2, e3, e4, e5, e6, e7, getU8_append xs ys j hj,
    getU8_append xs ys (j + 1) (by omega), getU8_append xs ys (j + 2) (by omega),
    getU8_append xs ys (j + 3) (by omega), getU8_append xs ys (j + 4) (by omega),
    getU8_append xs ys (j + 5) (by omega), getU8_append xs ys (j + 6) (by omega),
    getU8_append xs ys (j + 7) (by omega)]

theorem getInt32BE_append (xs ys : List Nat) (j : Int) (hj : 0 ≤ j) :
    getInt32BE (xs ++ ys) ((xs.length : Int) + j) = getInt32BE ys j := by
  unfold getInt32BE
  rw [getU32BE_append xs ys j hj]

theorem getInt32LE_append (xs ys : List Nat) (j : Int) (hj : 0 ≤ j) :
    getInt32LE (xs ++ ys) ((xs.length : Int) + j) = getInt32LE ys j := by
  unfold getInt32LE
  rw [getU32LE_append xs ys j hj]

theorem getU32BE_bytes (n : Nat) (hn : n < 2 ^ 32) (t : List Nat) :
    getU32BE (bytesU32BE n ++ t) 0 = .ok n := by
  simp [getU32BE, getU8, bytesU32BE, bind_ok_eq]
  omega

theorem getInt32BE_bytes (n : Nat) (hn : n < 2 ^ 31) (t : List Nat) :
    getInt32BE (bytesU32BE n ++ t) 0 = .ok (n : Int) := by
  rw [getInt32BE, getU32BE_bytes n (by omega) t]
  simp only [Except.map, toInt32]
  split
  · rfl
  · omega

theorem getU32LE_bytes (n : Nat) (hn : n < 2 ^ 32) (t : List Nat) :
    getU32LE (bytesU32LE n ++ t) 0 = .ok n := by
  simp [getU32LE, getU8, bytesU32LE, bind_ok_eq]
  omega

theorem getInt32LE_bytes (v : Int) (h1 : -(2 ^ 31) ≤ v) (h2 : v < 2 ^ 31)
    (t : List Nat) :
    getInt32LE (bytesI32LE v ++ t) 0 = .ok v := by
  have hpow : ((2 : Int) ^ 32) = 4294967296 := by norm_num
  rw [getInt32LE, bytesI32LE, hpow]
  rw [getU32LE_bytes (v % (4294967296 : Int)).toNat (by omega) t]
  simp only [Except.map, toInt32]
  split
  · congr 1
    omega
  · congr 1
    omega

theorem getF64LE_bytes (p : Nat) (hp : p < 2 ^ 64) (t : List Nat) :
    getF64LE (bytesF64LE p ++ t) 0 = .ok p := by
  simp [getF64LE, getU8, bytesF64LE, bind_ok_eq]
  omega

theorem flatMap_bytesI32LE_length (vs : List Int) :
    (vs.flatMap bytesI32LE).length = 4 * vs.length := by
  induction vs with
  | nil => rfl
  | cons v vs ih =>
    simp only [List.flatMap_cons, List.length_append, bytesI32LE_length, ih,
      List.length_cons]
    ring

theorem flatMap_bytesF64LE_length (ps : List Nat) :
    (ps.flatMap bytesF64LE).length = 8 * ps.length := by
  induction ps with
  | nil => rfl
  | cons p ps ih =>
    simp only [List.flatMap_cons, List.length_append, bytesF64LE_length, ih,
      List.length_cons]
    ring

/-! ### Positioned-read helpers: a read at the length of an explicit
prefix over an explicitly structured suffix. -/

theorem getInt32BE_eval (B X Y : List Nat) (n : Nat) (i : Int)
    (hB : B = X ++ (bytesU32BE n ++ Y)) (hi : i = (X.length : Int))
    (hn : n < 2 ^ 31) :
    getInt32BE B i = .ok (n : Int) := by
  subst hB hi
  have h := getInt32BE_append X (bytesU32BE n ++ Y) 0 le_rfl
  rw [add_zero] at h
  rw [h]
  exact getInt32BE_bytes n hn Y

theorem getU32LE_eval (B X Y : List Nat) (n : Nat) (i : Int)
    (hB : B = X ++ (bytesU32LE n ++ Y)) (hi : i = (X.length : Int))
    (hn : n < 2 ^ 32) :
    getU32LE B i = .ok n := by
  subst hB hi
  have h := getU32LE_append X (bytesU32LE n ++ Y) 0 le_rfl
  rw [add_zero] at h
  rw [h]
  exact getU32LE_bytes n hn Y

theorem getInt32LE_eval (B X Y : List Nat) (v : Int) (i : Int)
    (hB : B = X ++ (bytesI32LE v ++ Y)) (hi : i = (X.length : Int))
    (h1 : -(2 ^ 31) ≤ v) (h2 : v < 2 ^ 31) :
    getInt32LE B i = .ok v := by
  subst hB hi
  have h := getInt32LE_append X (bytesI32LE v ++ Y) 0 le_rfl
  rw [add_zero] at h
  rw [h]
  exact getInt32LE_bytes v h1 h2 Y

theorem getF64LE_eval (B X Y : List Nat) (p : Nat) (i : Int)
    (hB : B = X ++ (bytesF64LE p ++ Y)) (hi : i = (X.length : Int))
    (hp : p < 2 ^ 64) :
    getF64LE B i = .ok p := by
  subst hB hi
  have h := getF64LE_append X (bytesF64LE p ++ Y) 0 le_rfl
  rw [add_zero] at h
  rw [h]
  exact getF64LE_bytes p hp Y

theorem readInt32s_encode :
    ∀ (vs : List Int) (pre t : List Nat),
      (∀ v ∈ vs, -(2 ^ 31) ≤ v ∧ v < 2 ^ 31) →
      readInt32s (pre ++ (vs.flatMap bytesI32LE ++ t)) (pre.length : Int)
        vs.length = .ok vs := by
  intro vs
  induction vs with
  | nil => intro pre t _; rfl
  | cons v vs ih =>
    intro pre t hv
    simp only [List.length_cons]
    rw [readInt32s]
    have hb : pre ++ ((v :: vs).flatMap bytesI32LE ++ t) =
        pre ++ (bytesI32LE v ++ (vs.flatMap bytesI32LE ++ t)) := by
      simp [List.flatMap_cons, List.append_assoc]
    rw [hb]
    rw [getInt32LE_eval _ pre (vs.flatMap bytesI32LE ++ t) v _ rfl rfl
      (hv v (by simp)).1 (hv v (by simp)).2, bind_ok_eq]
    have hb2 : pre ++ (bytesI32LE v ++ (vs.flatMap bytesI32LE ++ t)) =
        (pre ++ bytesI32LE v) ++ (vs.flatMap bytesI32LE ++ t) := by
      simp [List.append_assoc]
    have hlen : (pre.length : Int) + 4 = (((pre ++ bytesI32LE v).length : Nat) : Int) := by
      simp [List.length_append, bytesI32LE_length]
    rw [hb2, hlen, ih (pre ++ bytesI32LE v) t (fun w hw => hv w (by simp [hw]))]
    rfl

theorem readF64s_encode :
    ∀ (ps : List Nat) (pre t : List Nat),
      (∀ p ∈ ps, p < 2 ^ 64) →
      readF64s (pre ++ (ps.flatMap bytesF64LE ++ t)) (pre.length : Int)
        ps.length = .ok ps := by
  intro ps
  induction ps with
  | nil => intro pre t _; rfl
  | cons p ps ih =>
    intro pre t hp
    simp only [List.length_cons]
    rw [readF64s]
    have hb : pre ++ ((p :: ps).flatMap bytesF64LE ++ t) =
        pre ++ (bytesF64LE p ++ (ps.flatMap bytesF64LE ++ t)) := by
      simp [List.flatMap_cons, List.append_assoc]
    rw [hb]
    rw [getF64LE_eval _ pre (ps.flatMap bytesF64LE ++ t) p _ rfl rfl
      (hp p (by simp)), bind_ok_eq]
    have hb2 : pre ++ (bytesF64LE p ++ (ps.flatMap bytesF64LE ++ t)) =
        (pre ++ bytesF64LE p) ++ (ps.flatMap bytesF64LE ++ t) := by
      simp [List.append_assoc]
    have hlen : (pre.length : Int) + 8 = (((pre ++ bytesF64LE p).length : Nat) : Int) := by
      simp [List.length_append, bytesF64LE_length]
    rw [hb2, hlen, ih (pre ++ bytesF64LE p) t (fun w hw => hp w (by simp [hw]))]
    rfl

theorem bind_pure_eq {e a b : Type _} (x : a) (f : a → Except e b) :
    (pure x : Except e a) >>= f = f x := rfl

/-- Parsing an encoded shape payload at the length of an arbitrary
prefix recovers the shape. -/
theorem parseShape_encode (s : SHPShape) (pre t : List Nat) (len : Int)
    (hs : WFShape s) :
    parseShape (pre ++ (encodeShape s ++ t)) ((pre.length : Nat) : Int) len =
      .ok s := by
  cases s with
  | null =>
    unfold parseShape
    rw [getInt32LE_eval _ pre t 0 _ (by simp [encodeShape]) rfl (by norm_num)
      (by norm_num), bind_ok_eq]
    norm_num
    rfl
  | point x y =>
    obtain ⟨hx, hy⟩ := hs
    unfold parseShape
    rw [getInt32LE_eval _ pre (bytesF64LE x ++ (bytesF64LE y ++ t)) 1 _
      (by simp [encodeShape, List.append_assoc]) rfl (by norm_num) (by norm_num),
      bind_ok_eq]
    norm_num
    rw [getF64LE_eval _ (pre ++ bytesI32LE 1) (bytesF64LE y ++ t) x _
      (by simp [encodeShape, List.append_assoc])
      (by push_cast [List.length_append, bytesI32LE_length]; ring) hx,
      bind_ok_eq]
    rw [getF64LE_eval _ (pre ++ bytesI32LE 1 ++ bytesF64LE x) t y _
      (by simp [encodeShape, List.append_assoc])
      (by push_cast [List.length_append, bytesI32LE_length, bytesF64LE_length]
          ring) hy]
    rfl
  | poly t0 mX mY MX MY parts points =>
    obtain ⟨ht, hmX, hmY, hMX, hMY, hplen, hpv, heven, hhalf, hpts⟩ := hs
    have hB : pre ++ (encodeShape (SHPShape.poly t0 mX mY MX MY parts points) ++ t) =
        pre ++ (bytesI32LE t0 ++ (bytesF64LE mX ++ (bytesF64LE mY ++
          (bytesF64LE MX ++ (bytesF64LE MY ++ (bytesI32LE parts.length ++
          (bytesI32LE (points.length / 2) ++ (parts.flatMap bytesI32LE ++
          (points.flatMap bytesF64LE ++ t))))))))) := by
      simp [encodeShape, List.append_assoc]
    unfold parseShape
    rw [hB]
    set R : List Nat := pre ++ (bytesI32LE t0 ++ (bytesF64LE mX ++ (bytesF64LE mY ++
      (bytesF64LE MX ++ (bytesF64LE MY ++ (bytesI32LE parts.length ++
      (bytesI32LE (points.length / 2) ++ (parts.flatMap bytesI32LE ++
      (points.flatMap bytesF64LE ++ t))))))))) with hR
    have htlo : -(2 ^ 31) ≤ t0 := by rcases ht with rfl | rfl | rfl <;> norm_num
    have hthi : t0 < 2 ^ 31 := by rcases ht with rfl | rfl | rfl <;> norm_num
    have hRead0 : getInt32LE R ((pre.length : Nat) : Int) = .ok t0 := by
      rw [hR]
      exact getInt32LE_eval _ pre
        (bytesF64LE mX ++ (bytesF64LE mY ++ (bytesF64LE MX ++ (bytesF64LE MY ++
          (bytesI32LE parts.length ++ (bytesI32LE (points.length / 2) ++
          (parts.flatMap bytesI32LE ++ (points.flatMap bytesF64LE ++ t))))))))
        t0 _ rfl rfl htlo hthi
    rw [hRead0, bind_ok_eq]
    have h0 : ¬(t0 = 0) := by rcases ht with rfl | rfl | rfl <;> norm_num
    have h1 : ¬(t0 = 1) := by rcases ht with rfl | rfl | rfl <;> norm_num
    have hor : t0 = 8 ∨ t0 = 3 ∨ t0 = 5 := by tauto
    rw [if_neg h0, if_neg h1, if_pos hor]
    have hRead1 : getF64LE R (((pre.length : Nat) : Int) + 4) = .ok mX := by
      rw [hR]
      exact getF64LE_eval _ (pre ++ bytesI32LE t0)
        (bytesF64LE mY ++ (bytesF64LE MX ++ (bytesF64LE MY ++
          (bytesI32LE parts.length ++ (bytesI32LE (points.length / 2) ++
          (parts.flatMap bytesI32LE ++ (points.flatMap bytesF64LE ++ t)))))))
        mX _ (by simp [List.append_assoc])
        (by push_cast [List.length_append, bytesI32LE_length]; ring) hmX
    rw [hRead1, bind_ok_eq]
    have hRead2 : getF64LE R (((pre.length : Nat) : Int) + 12) = .ok mY := by
      rw [hR]
      exact getF64LE_eval _ (pre ++ bytesI32LE t0 ++ bytesF64LE mX)
        (bytesF64LE MX ++ (bytesF64LE MY ++ (bytesI32LE parts.length ++
          (bytesI32LE (points.length / 2) ++ (parts.flatMap bytesI32LE ++
          (points.flatMap bytesF64LE ++ t))))))
        mY _ (by simp [List.append_assoc])
        (by push_cast [List.length_append, bytesI32LE_length, bytesF64LE_length]
            ring) hmY
    rw [hRead2, bind_ok_eq]
    have hRead3 : getF64LE R (((pre.length : Nat) : Int) + 20) = .ok MX := by
      rw [hR]
      exact getF64LE_eval _
        (pre ++ bytesI32LE t0 ++ bytesF64LE mX ++ bytesF64LE mY)
        (bytesF64LE MY ++ (bytesI32LE parts.length ++
          (bytesI32LE (points.length / 2) ++ (parts.flatMap bytesI32LE ++
          (points.flatMap bytesF64LE ++ t)))))
        MX _ (by simp [List.append_assoc])
        (by push_cast [List.length_append, bytesI32LE_length, bytesF64LE_length]
            ring) hMX
    rw [hRead3, bind_ok_eq]
    have hRead4 : getF64LE R (((pre.length : Nat) : Int) + 28) = .ok MY := by
      rw [hR]
      exact getF64LE_eval _
        (pre ++ bytesI32LE t0 ++ bytesF64LE mX ++ bytesF64LE mY ++ bytesF64LE MX)
        (bytesI32LE parts.length ++ (bytesI32LE (points.length / 2) ++
          (parts.flatMap bytesI32LE ++ (points.flatMap bytesF64LE ++ t))))
        MY _ (by simp [List.append_assoc])
        (by push_cast [List.length_append, bytesI32LE_length, bytesF64LE_length]
            ring) hMY
    rw [hRead4, bind_ok_eq]
    have hRead5 : getInt32LE R (((pre.length : Nat) : Int) + 36) =
        .ok (parts.length : Int) := by
      rw [hR]
      exact getInt32LE_eval _
        (pre ++ bytesI32LE t0 ++ bytesF64LE mX ++ bytesF64LE mY ++
          bytesF64LE MX ++ bytesF64LE MY)
        (bytesI32LE (points.length / 2) ++ (parts.flatMap bytesI32LE ++
          (points.flatMap bytesF64LE ++ t)))
        (parts.length : Int) _ (by simp [List.append_assoc])
        (by push_cast [List.length_append, bytesI32LE_length, bytesF64LE_length]
            ring)
        (by omega) (by omega)
    rw [hRead5, bind_ok_eq]
    have hRead6 : getInt32LE R (((pre.length : Nat) : Int) + 40) =
        .ok ((points.length : Int) / 2) := by
      rw [hR]
      exact getInt32LE_eval _
        (pre ++ bytesI32LE t0 ++ bytesF64LE mX ++ bytesF64LE mY ++
          bytesF64LE MX ++ bytesF64LE MY ++ bytesI32LE parts.length)
        (parts.flatMap bytesI32LE ++ (points.flatMap bytesF64LE ++ t))
        ((points.length : Int) / 2) _ (by simp [List.append_assoc])
        (by push_cast [List.length_append, bytesI32LE_length, bytesF64LE_length]
            ring)
        (by omega) (by omega)
    rw [hRead6, bind_ok_eq]
    have hnneg1 : ¬((parts.length : Int) < 0) := by omega
    have hnneg2 : ¬(((points.length : Int) / 2) < 0) := by omega
    rw [if_neg hnneg1, bind_pure_eq]
    have hparts : readInt32s R (((pre.length : Nat) : Int) + 44)
        ((parts.length : Int)).toNat = .ok parts := by
      rw [hR]
      have hb2 : pre ++ (bytesI32LE t0 ++ (bytesF64LE mX ++ (bytesF64LE mY ++
          (bytesF64LE MX ++ (bytesF64LE MY ++ (bytesI32LE parts.length ++
          (bytesI32LE (points.length / 2) ++ (parts.flatMap bytesI32LE ++
          (points.flatMap bytesF64LE ++ t))))))))) =
          (pre ++ bytesI32LE t0 ++ bytesF64LE mX ++ bytesF64LE mY ++
            bytesF64LE MX ++ bytesF64LE MY ++ bytesI32LE parts.length ++
            bytesI32LE (points.length / 2)) ++
            (parts.flatMap bytesI32LE ++ (points.flatMap bytesF64LE ++ t)) := by
        simp [List.append_assoc]
      have hoff : (((pre.length : Nat) : Int) + 44) =
          (((pre ++ bytesI32LE t0 ++ bytesF64LE mX ++ bytesF64LE mY ++
            bytesF64LE MX ++ bytesF64LE MY ++ bytesI32LE parts.length ++
            bytesI32LE (points.length / 2)).length : Nat) : Int) := by
        push_cast [List.length_append, bytesI32LE_length, bytesF64LE_length]
        ring
      have hcnt : ((parts.length : Int)).toNat = parts.length := by omega
      rw [hcnt, hb2, hoff]
      exact readInt32s_encode parts _ _ hpv
    rw [hparts, bind_ok_eq, if_neg hnneg2, bind_pure_eq]
    have hpoints : readF64s R
        (((pre.length : Nat) : Int) + 44 + 4 * (parts.length : Int))
        (((points.length : Int) / 2) * 2).toNat = .ok points := by
      rw [hR]
      have hb3 : pre ++ (bytesI32LE t0 ++ (bytesF64LE mX ++ (bytesF64LE mY ++
          (bytesF64LE MX ++ (bytesF64LE MY ++ (bytesI32LE parts.length ++
          (bytesI32LE (points.length / 2) ++ (parts.flatMap bytesI32LE ++
          (points.flatMap bytesF64LE ++ t))))))))) =
          (pre ++ bytesI32LE t0 ++ bytesF64LE mX ++ bytesF64LE mY ++
            bytesF64LE MX ++ bytesF64LE MY ++ bytesI32LE parts.length ++
            bytesI32LE (points.length / 2) ++ parts.flatMap bytesI32LE) ++
            (points.flatMap bytesF64LE ++ t) := by
        simp [List.append_assoc]
      have hoff3 : (((pre.length : Nat) : Int) + 44 + 4 * (parts.length : Int)) =
          (((pre ++ bytesI32LE t0 ++ bytesF64LE mX ++ bytesF64LE mY ++
            bytesF64LE MX ++ bytesF64LE MY ++ bytesI32LE parts.length ++
            bytesI32LE (points.length / 2) ++ parts.flatMap bytesI32LE).length :
              Nat) : Int) := by
        push_cast [List.length_append, bytesI32LE_length, bytesF64LE_length,
          flatMap_bytesI32LE_length]
        ring
      have hcnt3 : (((points.length : Int) / 2) * 2).toNat = points.length := by
        omega
      rw [hcnt3, hb3, hoff3]
      exact readF64s_encode points _ _ hpts
    rw [hpoints]
    rfl

theorem mapError_ok_eq {e f a : Type _} (x : a) (g : e → f) :
    (Except.ok x : Except e a).mapError g = .ok x := rfl

theorem bind_eq_ok {e a b : Type _} {x : Except e a} {f : a → Except e b}
    {v : b} (h : x >>= f = .ok v) : ∃ y, x = .ok y ∧ f y = .ok v := by
  cases x with
  | ok y => exact ⟨y, rfl, h⟩
  | error u => exact absurd h (by simp [bind_error_eq])

theorem map_eq_ok {e a b : Type _} {x : Except e a} {f : a → b} {v : b}
    (h : f <$> x = .ok v) : ∃ y, x = .ok y ∧ f y = v := by
  cases x with
  | ok y =>
    refine ⟨y, rfl, ?_⟩
    have : (Except.ok (f y) : Except e b) = .ok v := h
    exact Except.ok.inj this
  | error u => exact absurd h (by simp [Except.map, Functor.map])

theorem encodeShape_length_pos (s : SHPShape) : 4 ≤ (encodeShape s).length := by
  cases s <;>
    simp [encodeShape, List.length_append, bytesI32LE_length, bytesU32LE_length,
      bytesF64LE_length]

theorem encodeShape_length_even (s : SHPShape) :
    (encodeShape s).length % 2 = 0 := by
  cases s <;>
    simp only [encodeShape, List.length_append, bytesI32LE_length,
      bytesU32LE_length, bytesF64LE_length, flatMap_bytesI32LE_length,
      flatMap_bytesF64LE_length]
  all_goals omega

theorem contentWords_mul_two (s : SHPShape) :
    2 * contentWords s = (encodeShape s).length := by
  have h := encodeShape_length_even s
  unfold contentWords
  omega

theorem encodeRecord_length (k : Nat) (s : SHPShape) :
    (encodeRecord k s).length = 8 + (encodeShape s).length := by
  simp [encodeRecord, List.length_append, bytesU32BE_length]
  omega

theorem encodeRecords_length_even :
    ∀ (k : Nat) (shapes : List SHPShape),
      (encodeRecords k shapes).length % 2 = 0 := by
  intro k shapes
  induction shapes generalizing k with
  | nil => rfl
  | cons s rest ih =>
    have h1 := encodeShape_length_even s
    simp only [encodeRecords, List.length_append, encodeRecord_length]
    have h2 := ih (k + 1)
    omega

theorem length_le_encodeRecords_length :
    ∀ (k : Nat) (shapes : List SHPShape),
      shapes.length ≤ (encodeRecords k shapes).length := by
  intro k shapes
  induction shapes generalizing k with
  | nil => simp [encodeRecords]
  | cons s rest ih =>
    have h1 := encodeShape_length_pos s
    simp only [encodeRecords, List.length_append, encodeRecord_length,
      List.length_cons]
    have h2 := ih (k + 1)
    omega

theorem encodeShape_le_encodeRecords :
    ∀ (k : Nat) (shapes : List SHPShape) (s : SHPShape), s ∈ shapes →
      (encodeShape s).length ≤ (encodeRecords k shapes).length := by
  intro k shapes
  induction shapes generalizing k with
  | nil => intro s hs; exact absurd hs (List.not_mem_nil s)
  | cons a rest ih =>
    intro s hs
    simp only [encodeRecords, List.length_append, encodeRecord_length]
    rcases List.mem_cons.mp hs with rfl | hs2
    · omega
    · have := ih (k + 1) s hs2
      omega

theorem expectedRecords_length :
    ∀ (k : Nat) (shapes : List SHPShape),
      (expectedRecords k shapes).length = shapes.length := by
  intro k shapes
  induction shapes generalizing k with
  | nil => rfl
  | cons s rest ih => simp [expectedRecords, ih]

theorem expectedRecords_tags :
    ∀ (k : Nat) (shapes : List SHPShape),
      (expectedRecords k shapes).map (fun r => shapeTag r.shape) =
        shapes.map shapeTag := by
  intro k shapes
  induction shapes generalizing k with
  | nil => rfl
  | cons s rest ih => simp [expectedRecords, ih]

/-- The record loop of `SHPParser.parse`, run at the length of an
arbitrary prefix over the remaining encoded records, returns exactly
the expected records. -/
theorem parseRecords_encode :
    ∀ (shapes : List SHPShape) (pre : List Nat) (k fuel : Nat),
      (∀ s ∈ shapes, WFShape s) →
      1 ≤ k → k + shapes.length ≤ 2 ^ 31 →
      (∀ s ∈ shapes, contentWords s < 2 ^ 31) →
      shapes.length ≤ fuel →
      parseRecords (pre ++ encodeRecords k shapes)
        (((pre.length : Nat) : Int) + (((encodeRecords k shapes).length : Nat) : Int))
        fuel ((pre.length : Nat) : Int) = .ok (expectedRecords k shapes) := by
  intro shapes
  induction shapes with
  | nil =>
    intro pre k fuel _ _ _ _ _
    have hc : ¬(((pre.length : Nat) : Int) <
        ((pre.length : Nat) : Int) + (((encodeRecords k []).length : Nat) : Int)) := by
      simp [encodeRecords]
    cases fuel with
    | zero => rw [parseRecords, if_neg hc]; rfl
    | succ f => rw [parseRecords, if_neg hc]; rfl
  | cons s rest ih =>
    intro pre k fuel hwf hk1 hk2 hcw hfuel
    obtain ⟨f, rfl⟩ : ∃ f, fuel = f + 1 :=
      ⟨fuel - 1, by simp at hfuel; omega⟩
    rw [parseRecords]
    have hpos := encodeShape_length_pos s
    have hc : (((pre.length : Nat) : Int) <
        ((pre.length : Nat) : Int) +
          (((encodeRecords k (s :: rest)).length : Nat) : Int)) := by
      simp only [encodeRecords, List.length_append, encodeRecord_length]
      push_cast
      omega
    rw [if_pos hc]
    have hBrec : pre ++ encodeRecords k (s :: rest) =
        pre ++ (bytesU32BE k ++ (bytesU32BE (contentWords s) ++
          (encodeShape s ++ encodeRecords (k + 1) rest))) := by
      simp [encodeRecords, encodeRecord, List.append_assoc]
    rw [hBrec]
    set R : List Nat := pre ++ (bytesU32BE k ++ (bytesU32BE (contentWords s) ++
      (encodeShape s ++ encodeRecords (k + 1) rest))) with hR
    have hkbound : k < 2 ^ 31 := by simp at hk2; omega
    have hRead0 : getInt32BE R ((pre.length : Nat) : Int) = .ok (k : Int) := by
      rw [hR]
      exact getInt32BE_eval _ pre
        (bytesU32BE (contentWords s) ++ (encodeShape s ++ encodeRecords (k + 1) rest))
        k _ rfl rfl hkbound
    rw [hRead0, bind_ok_eq]
    have hRead1 : getInt32BE R (((pre.length : Nat) : Int) + 4) =
        .ok ((contentWords s : Nat) : Int) := by
      rw [hR]
      exact getInt32BE_eval _ (pre ++ bytesU32BE k)
        (encodeShape s ++ encodeRecords (k + 1) rest)
        (contentWords s) _ (by simp [List.append_assoc])
        (by push_cast [List.length_append, bytesU32BE_length]; ring)
        (hcw s (by simp))
    rw [hRead1, bind_ok_eq]
    have hShape : parseShape R (((pre.length : Nat) : Int) + 8)
        ((contentWords s : Nat) : Int) = .ok s := by
      rw [hR]
      have hb : pre ++ (bytesU32BE k ++ (bytesU32BE (contentWords s) ++
          (encodeShape s ++ encodeRecords (k + 1) rest))) =
          (pre ++ bytesU32BE k ++ bytesU32BE (contentWords s)) ++
            (encodeShape s ++ encodeRecords (k + 1) rest) := by
        simp [List.append_assoc]
      have hoff : (((pre.length : Nat) : Int) + 8) =
          (((pre ++ bytesU32BE k ++ bytesU32BE (contentWords s)).length : Nat) :
            Int) := by
        push_cast [List.length_append, bytesU32BE_length]
        ring
      rw [hb, hoff]
      exact parseShape_encode s _ _ _ (hwf s (by simp))
    rw [hShape, mapError_ok_eq, bind_ok_eq]
    have hRec : parseRecords R
        (((pre.length : Nat) : Int) +
          (((encodeRecords k (s :: rest)).length : Nat) : Int)) f
        (((pre.length : Nat) : Int) + 8 + ((contentWords s : Nat) : Int) * 2) =
        .ok (expectedRecords (k + 1) rest) := by
      have hb2 : R = (pre ++ encodeRecord k s) ++ encodeRecords (k + 1) rest := by
        rw [hR]
        simp [encodeRecord, List.append_assoc]
      have hoff2 : (((pre.length : Nat) : Int) + 8 +
          ((contentWords s : Nat) : Int) * 2) =
          (((pre ++ encodeRecord k s).length : Nat) : Int) := by
        have h2 := contentWords_mul_two s
        push_cast [List.length_append, encodeRecord_length]
        omega
      have hL2 : (((pre.length : Nat) : Int) +
          (((encodeRecords k (s :: rest)).length : Nat) : Int)) =
          (((pre ++ encodeRecord k s).length : Nat) : Int) +
            (((encodeRecords (k + 1) rest).length : Nat) : Int) := by
        simp only [encodeRecords, List.length_append]
        push_cast
        ring
      rw [hb2, hoff2, hL2]
      exact ih (pre ++ encodeRecord k s) (k + 1) f
        (fun u hu => hwf u (by simp [hu])) (by omega)
        (by simp at hk2 ⊢; omega)
        (fun u hu => hcw u (by simp [hu])) (by simp at hfuel; omega)
    rw [hRec]
    rfl

/-- One successful iteration of the record loop hands the remaining
records to the recursive call at exactly
`idx + 8 + contentLengthWords * 2`: the cursor advances by the declared
content length from the start of the payload (which begins 8 bytes
after the record header at `idx`). -/
theorem parseRecords_step (dv : List Nat) (L : Int) (fuel : Nat) (idx : Int)
    (r : SHPRecordModel) (rest : List SHPRecordModel)
    (h : parseRecords dv L (fuel + 1) idx = .ok (r :: rest)) :
    parseRecords dv L fuel (idx + 8 + r.length * 2) = .ok rest := by
  rw [parseRecords] at h
  by_cases hc : idx < L
  · rw [if_pos hc] at h
    obtain ⟨num, h1, h⟩ := bind_eq_ok h
    obtain ⟨len, h2, h⟩ := bind_eq_ok h
    obtain ⟨shape, h3, h⟩ := bind_eq_ok h
    obtain ⟨rest2, h4, h5⟩ := map_eq_ok h
    have h6 := List.cons.inj h5
    obtain ⟨hrec, hrest⟩ := h6
    subst hrest
    rw [← hrec]
    exact h4
  · rw [if_neg hc] at h
    exact absurd (Except.ok.inj h) (by simp)

theorem encodeHeader_length (shapes : List SHPShape) :
    (encodeHeader shapes).length = 100 := by
  simp [encodeHeader, List.length_append, bytesU32BE_length, bytesI32LE_length,
    bytesF64LE_length, List.length_replicate]

/-- C6: for every buffer produced by encoding N well-formed geometries
of the supported shape types per the fixed binary layout,
`SHPParser.parse` succeeds and yields exactly N records in original
order with the expected record numbers, declared content lengths and
geometries; in particular each record's shape-type tag matches the
encoded type, and (last conjunct) the record loop resumes after each
record at exactly `contentLengthWords * 2` bytes past the start of the
payload. -/
theorem c6_roundtrip :
    ∀ (shapes : List SHPShape),
      (∀ s ∈ shapes, WFShape s) →
      totalWords shapes < 2 ^ 31 →
      1 + shapes.length ≤ 2 ^ 31 →
      (SHPparse (encodeShp shapes) = .ok (expectedFile shapes) ∧
        (expectedFile shapes).records.length = shapes.length ∧
        (expectedFile shapes).records.map (fun r => shapeTag r.shape) =
          shapes.map shapeTag) ∧
      ∀ (dv : List Nat) (L : Int) (fuel : Nat) (idx : Int)
        (r : SHPRecordModel) (rest : List SHPRecordModel),
        parseRecords dv L (fuel + 1) idx = .ok (r :: rest) →
        parseRecords dv L fuel (idx + 8 + r.length * 2) = .ok rest := by
  intro shapes hwf htw hN
  refine ⟨⟨?_, ?_, ?_⟩,
    fun dv L fuel idx r rest h => parseRecords_step dv L fuel idx r rest h⟩
  · have hB : encodeShp shapes =
        bytesU32BE 9994 ++ (List.replicate 20 0 ++
          (bytesU32BE (totalWords shapes) ++ (bytesI32LE 1000 ++
          (bytesI32LE 0 ++ (bytesF64LE 0 ++ (bytesF64LE 0 ++ (bytesF64LE 0 ++
          (bytesF64LE 0 ++ (bytesF64LE 0 ++ (bytesF64LE 0 ++ (bytesF64LE 0 ++
          (bytesF64LE 0 ++ encodeRecords 1 shapes)))))))))))) := by
      simp [encodeShp, encodeHeader, List.append_assoc]
    unfold SHPparse
    rw [hB]
    set R : List Nat := bytesU32BE 9994 ++ (List.replicate 20 0 ++
      (bytesU32BE (totalWords shapes) ++ (bytesI32LE 1000 ++
      (bytesI32LE 0 ++ (bytesF64LE 0 ++ (bytesF64LE 0 ++ (bytesF64LE 0 ++
      (bytesF64LE 0 ++ (bytesF64LE 0 ++ (bytesF64LE 0 ++ (bytesF64LE 0 ++
      (bytesF64LE 0 ++ encodeRecords 1 shapes)))))))))))) with hR
    have hRead0 : getInt32BE R 0 = .ok (9994 : Int) := by
      rw [hR]
      have := getInt32BE_eval (bytesU32BE 9994 ++ (List.replicate 20 0 ++
        (bytesU32BE (totalWords shapes) ++ (bytesI32LE 1000 ++
        (bytesI32LE 0 ++ (bytesF64LE 0 ++ (bytesF64LE 0 ++ (bytesF64LE 0 ++
        (bytesF64LE 0 ++ (bytesF64LE 0 ++ (bytesF64LE 0 ++ (bytesF64LE 0 ++
        (bytesF64LE 0 ++ encodeRecords 1 shapes))))))))))))) ([] : List Nat)
        (List.replicate 20 0 ++
        (bytesU32BE (totalWords shapes) ++ (bytesI32LE 1000 ++
        (bytesI32LE 0 ++ (bytesF64LE 0 ++ (bytesF64LE 0 ++ (bytesF64LE 0 ++
        (bytesF64LE 0 ++ (bytesF64LE 0 ++ (bytesF64LE 0 ++ (bytesF64LE 0 ++
        (bytesF64LE 0 ++ encodeRecords 1 shapes)))))))))))) 9994 0
        (by simp) (by simp) (by norm_num)
      exact this
    rw [hRead0, bind_ok_eq]
    rw [if_neg (by norm_num : ¬((9994 : Int) ≠ 0x0000270a)), bind_pure_eq]
    have hRead1 : getInt32BE R 24 = .ok ((totalWords shapes : Nat) : Int) := by
      rw [hR]
      exact getInt32BE_eval _ (bytesU32BE 9994 ++ List.replicate 20 0)
        (bytesI32LE 1000 ++
          (bytesI32LE 0 ++ (bytesF64LE 0 ++ (bytesF64LE 0 ++ (bytesF64LE 0 ++
          (bytesF64LE 0 ++ (bytesF64LE 0 ++ (bytesF64LE 0 ++ (bytesF64LE 0 ++
          (bytesF64LE 0 ++ encodeRecords 1 shapes))))))))))
        (totalWords shapes) 24 (by simp [List.append_assoc])
        (by simp [List.length_append, bytesU32BE_length, List.length_replicate])
        htw
    rw [hRead1, bind_ok_eq]
    have hRead2 : getInt32LE R 28 = .ok (1000 : Int) := by
      rw [hR]
      exact getInt32LE_eval _
        (bytesU32BE 9994 ++ List.replicate 20 0 ++
          bytesU32BE (totalWords shapes))
        (bytesI32LE 0 ++ (bytesF64LE 0 ++ (bytesF64LE 0 ++ (bytesF64LE 0 ++
          (bytesF64LE 0 ++ (bytesF64LE 0 ++ (bytesF64LE 0 ++ (bytesF64LE 0 ++
          (bytesF64LE 0 ++ encodeRecords 1 shapes)))))))))
        1000 28 (by simp [List.append_assoc])
        (by simp [List.length_append, bytesU32BE_length, List.length_replicate])
        (by norm_num) (by norm_num)
    rw [hRead2, bind_ok_eq]
    have hRead3 : getInt32LE R 32 = .ok (0 : Int) := by
      rw [hR]
      exact getInt32LE_eval _
        (bytesU32BE 9994 ++ List.replicate 20 0 ++
          bytesU32BE (totalWords shapes) ++ bytesI32LE 1000)
        (bytesF64LE 0 ++ (bytesF64LE 0 ++ (bytesF64LE 0 ++
          (bytesF64LE 0 ++ (bytesF64LE 0 ++ (bytesF64LE 0 ++ (bytesF64LE 0 ++
          (bytesF64LE 0 ++ encodeRecords 1 shapes))))))))
        0 32 (by simp [List.append_assoc])
        (by simp [List.length_append, bytesU32BE_length, bytesI32LE_length,
          List.length_replicate])
        (by norm_num) (by norm_num)
    rw [hRead3, bind_ok_eq]
    have hRead4 : getF64LE R 36 = .ok 0 := by
      rw [hR]
      exact getF64LE_eval _ (bytesU32BE 9994 ++ List.replicate 20 0 ++
        bytesU32BE (totalWords shapes) ++ bytesI32LE 1000 ++ bytesI32LE 0) ((bytesF64LE 0 ++ (bytesF64LE 0 ++ (bytesF64LE 0 ++ (bytesF64LE 0 ++ (bytesF64LE 0 ++ (bytesF64LE 0 ++ (bytesF64LE 0 ++ encodeRecords 1 shapes)))))))) 0 36 (by simp [List.append_assoc])
        (by simp [List.length_append, bytesU32BE_length, bytesI32LE_length,
          bytesF64LE_length, List.length_replicate])
        (by norm_num)
    rw [hRead4, bind_ok_eq]
    have hRead5 : getF64LE R 44 = .ok 0 := by
      rw [hR]
      exact getF64LE_eval _ (bytesU32BE 9994 ++ List.replicate 20 0 ++
        bytesU32BE (totalWords shapes) ++ bytesI32LE 1000 ++ bytesI32LE 0 ++
        bytesF64LE 0) ((bytesF64LE 0 ++ (bytesF64LE 0 ++ (bytesF64LE 0 ++ (bytesF64LE 0 ++ (bytesF64LE 0 ++ (bytesF64LE 0 ++ encodeRecords 1 shapes))))))) 0 44 (by simp [List.append_assoc])
        (by simp [List.length_append, bytesU32BE_length, bytesI32LE_length,
          bytesF64LE_length, List.length_replicate])
        (by norm_num)
    rw [hRead5, bind_ok_eq]
    have hRead6 : getF64LE R 52 = .ok 0 := by
      rw [hR]
      exact getF64LE_eval _ (bytesU32BE 9994 ++ List.replicate 20 0 ++
        bytesU32BE (totalWords shapes) ++ bytesI32LE 1000 ++ bytesI32LE 0 ++
        bytesF64LE 0 ++
        bytesF64LE 0) ((bytesF64LE 0 ++ (bytesF64LE 0 ++ (bytesF64LE 0 ++ (bytesF64LE 0 ++ (bytesF64LE 0 ++ encodeRecords 1 shapes)))))) 0 52 (by simp [List.append_assoc])
        (by simp [List.length_append, bytesU32BE_length, bytesI32LE_length,
          bytesF64LE_length, List.length_replicate])
        (by norm_num)
    rw [hRead6, bind_ok_eq]
    have hRead7 : getF64LE R 60 = .ok 0 := by
      rw [hR]
      exact getF64LE_eval _ (bytesU32BE 9994 ++ List.replicate 20 0 ++
        bytesU32BE (totalWords shapes) ++ bytesI32LE 1000 ++ bytesI32LE 0 ++
        bytesF64LE 0 ++
        bytesF64LE 0 ++
        bytesF64LE 0) ((bytesF64LE 0 ++ (bytesF64LE 0 ++ (bytesF64LE 0 ++ (bytesF64LE 0 ++ encodeRecords 1 shapes))))) 0 60 (by simp [List.append_assoc])
        (by simp [List.length_append, bytesU32BE_length, bytesI32LE_length,
          bytesF64LE_length, List.length_replicate])
        (by norm_num)
    rw [hRead7, bind_ok_eq]
    have hRead8 : getF64LE R 68 = .ok 0 := by
      rw [hR]
      exact getF64LE_eval _ (bytesU32BE 9994 ++ List.replicate 20 0 ++
        bytesU32BE (totalWords shapes) ++ bytesI32LE 1000 ++ bytesI32LE 0 ++
        bytesF64LE 0 ++
        bytesF64LE 0 ++
        bytesF64LE 0 ++
        bytesF64LE 0) ((bytesF64LE 0 ++ (bytesF64LE 0 ++ (bytesF64LE 0 ++ encodeRecords 1 shapes)))) 0 68 (by simp [List.append_assoc])
        (by simp [List.length_append, bytesU32BE_length, bytesI32LE_length,
          bytesF64LE_length, List.length_replicate])
        (by norm_num)
    rw [hRead8, bind_ok_eq]
    have hRead9 : getF64LE R 76 = .ok 0 := by
      rw [hR]
      exact getF64LE_eval _ (bytesU32BE 9994 ++ List.replicate 20 0 ++
        bytesU32BE (totalWords shapes) ++ bytesI32LE 1000 ++ bytesI32LE 0 ++
        bytesF64LE 0 ++
        bytesF64LE 0 ++
        bytesF64LE 0 ++
        bytesF64LE 0 ++
        bytesF64LE 0) ((bytesF64LE 0 ++ (bytesF64LE 0 ++ encodeRecords 1 shapes))) 0 76 (by simp [List.append_assoc])
        (by simp [List.length_append, bytesU32BE_length, bytesI32LE_length,
          bytesF64LE_length, List.length_replicate])
        (by norm_num)
    rw [hRead9, bind_ok_eq]
    have hRead10 : getF64LE R 84 = .ok 0 := by
      rw [hR]
      exact getF64LE_eval _ (bytesU32BE 9994 ++ List.replicate 20 0 ++
        bytesU32BE (totalWords shapes) ++ bytesI32LE 1000 ++ bytesI32LE 0 ++
        bytesF64LE 0 ++
        bytesF64LE 0 ++
        bytesF64LE 0 ++
        bytesF64LE 0 ++
        bytesF64LE 0 ++
        bytesF64LE 0) ((bytesF64LE 0 ++ encodeRecords 1 shapes)) 0 84 (by simp [List.append_assoc])
        (by simp [List.length_append, bytesU32BE_length, bytesI32LE_length,
          bytesF64LE_length, List.length_replicate])
        (by norm_num)
    rw [hRead10, bind_ok_eq]
    have hRead11 : getF64LE R 92 = .ok 0 := by
      rw [hR]
      exact getF64LE_eval _ (bytesU32BE 9994 ++ List.replicate 20 0 ++
        bytesU32BE (totalWords shapes) ++ bytesI32LE 1000 ++ bytesI32LE 0 ++
        bytesF64LE 0 ++
        bytesF64LE 0 ++
        bytesF64LE 0 ++
        bytesF64LE 0 ++
        bytesF64LE 0 ++
        bytesF64LE 0 ++
        bytesF64LE 0) (encodeRecords 1 shapes) 0 92 (by simp [List.append_assoc])
        (by simp [List.length_append, bytesU32BE_length, bytesI32LE_length,
          bytesF64LE_length, List.length_replicate])
        (by norm_num)
    rw [hRead11, bind_ok_eq]
    have heven := encodeRecords_length_even 1 shapes
    have hge := length_le_encodeRecords_length 1 shapes
    have hcw : ∀ s ∈ shapes, contentWords s < 2 ^ 31 := by
      intro s hs
      have h1 := encodeShape_le_encodeRecords 1 shapes s hs
      have h2 := encodeShape_length_even s
      unfold contentWords
      unfold totalWords at htw
      omega
    have hRecs : parseRecords R (((totalWords shapes : Nat) : Int) * 2)
        ((((totalWords shapes : Nat) : Int) * 2).toNat) 100 =
        .ok (expectedRecords 1 shapes) := by
      have hBuf : R = encodeHeader shapes ++ encodeRecords 1 shapes := by
        rw [hR]
        simp [encodeHeader, List.append_assoc]
      have htw2 : ((totalWords shapes : Nat) : Int) * 2 =
          (((encodeHeader shapes).length : Nat) : Int) +
            (((encodeRecords 1 shapes).length : Nat) : Int) := by
        rw [encodeHeader_length]
        unfold totalWords
        push_cast
        omega
      have h100 : (100 : Int) = (((encodeHeader shapes).length : Nat) : Int) := by
        rw [encodeHeader_length]
        norm_num
      have hfuel : shapes.length ≤
          ((((totalWords shapes : Nat) : Int)) * 2).toNat := by
        unfold totalWords
        omega
      rw [hBuf]
      rw [show (((totalWords shapes : Nat) : Int) * 2) =
          (((encodeHeader shapes).length : Nat) : Int) +
            (((encodeRecords 1 shapes).length : Nat) : Int) from htw2]
      rw [show (100 : Int) = (((encodeHeader shapes).length : Nat) : Int) from h100]
      exact parseRecords_encode shapes (encodeHeader shapes) 1 _ hwf le_rfl
        (by omega) hcw (by rw [← htw2]; exact hfuel)
    rw [hRecs]
    rfl
  · simp [expectedFile, expectedRecords_length]
  · simp only [expectedFile]
    exact expectedRecords_tags 1 shapes

/-- C6 (witness): a three-record file — Null, Point, one-ring Polygon —
round-trips through the encoder and `SHPParser.parse`. -/
theorem c6_roundtrip_witness :
    SHPparse (encodeShp [SHPShape.null, SHPShape.point 5 7,
        SHPShape.poly 5 0 0 0 0 [0] [1, 2]]) =
      .ok (expectedFile [SHPShape.null, SHPShape.point 5 7,
        SHPShape.poly 5 0 0 0 0 [0] [1, 2]]) :=
  ((c6_roundtrip [SHPShape.null, SHPShape.point 5 7,
      SHPShape.poly 5 0 0 0 0 [0] [1, 2]]
    (by intro s hs; fin_cases hs <;> simp [WFShape])
    (by decide) (by decide)).1).1

/-! ## Lemmas on the coordinate assembly (claims C3, C7, C8, C10) -/

theorem pairsOf_length : ∀ (points : List Nat),
    (pairsOf points).length = points.length / 2
  | [] => by simp [pairsOf]
  | [_] => by simp [pairsOf]
  | _ :: _ :: rest => by
    simp only [pairsOf, List.length_cons, pairsOf_length rest]
    omega

theorem coordPairs_even (T : Nat → Nat → Nat × Nat) :
    ∀ (points : List Nat), points.length % 2 = 0 →
      coordPairs T points =
        (pairsOf points).map (fun c => TransCoord T c.1 c.2)
  | [], _ => rfl
  | [x], h => by simp at h
  | x :: y :: rest, h => by
    have h2 : rest.length % 2 = 0 := by simp at h; omega
    simp only [coordPairs, pairsOf, List.map_cons]
    rw [coordPairs_even T rest h2]

/-- C7: assembly maps shape type 1 to a Point with one reprojected
coordinate pair, shape type 3 to a LineString through all point pairs
in order (each reprojected), and shape type 8 to a MultiPoint with
each point pair reprojected independently and no ring grouping. -/
theorem c7_geometry_mapping :
    ∀ (T : Nat → Nat → Nat × Nat),
      (∀ x y : Nat,
        shapeGeometry T (SHPShape.point x y) = .ok (.point (TransCoord T x y))) ∧
      (∀ (mX mY MX MY : Nat) (parts : List Int) (points : List Nat),
        points.length % 2 = 0 →
        shapeGeometry T (SHPShape.poly 3 mX mY MX MY parts points) =
          .ok (.lineString
            ((pairsOf points).map (fun c => TransCoord T c.1 c.2)))) ∧
      (∀ (mX mY MX MY : Nat) (parts : List Int) (points : List Nat),
        points.length % 2 = 0 →
        shapeGeometry T (SHPShape.poly 8 mX mY MX MY parts points) =
          .ok (.multiPoint
            ((pairsOf points).map (fun c => TransCoord T c.1 c.2)))) := by
  intro T
  refine ⟨fun x y => rfl, ?_, ?_⟩ <;>
  · intro mX mY MX MY parts points h
    simp [shapeGeometry, coordPairs_even T points h]

/-- C7 (witness): an even four-float array decodes to the two pairs in
order for a Polyline. -/
theorem c7_geometry_mapping_witness :
    ([1, 2, 3, 4] : List Nat).length % 2 = 0 ∧
      shapeGeometry idT (SHPShape.poly 3 0 0 0 0 [] [1, 2, 3, 4]) =
        .ok (.lineString [(1, 2), (3, 4)]) :=
  ⟨by decide, by
    rw [(c7_geometry_mapping idT).2.1 0 0 0 0 [] [1, 2, 3, 4] (by decide)]
    decide⟩

theorem take_drop_eq_range_map {α : Type _} (l : List α) (a b : Nat) (d : α)
    (hb : b ≤ l.length) :
    (l.take b).drop a = (List.range (b - a)).map (fun i => l.getD (a + i) d) := by
  apply List.ext_getElem
  · simp only [List.length_drop, List.length_take, List.length_map,
      List.length_range]
    omega
  · intro i h1 h2
    simp only [List.length_drop, List.length_take] at h1
    rw [List.getElem_drop, List.getElem_take, List.getElem_map,
      List.getElem_range, List.getD_eq_getElem l d (by omega)]

theorem pairsOf_getElem : ∀ (points : List Nat) (k : Nat)
    (h : k < (pairsOf points).length),
    (pairsOf points)[k] =
      (points.getD (2 * k) jsUndefined, points.getD (2 * k + 1) jsUndefined)
  | [], k, h => by simp [pairsOf] at h
  | [x], k, h => by simp [pairsOf] at h
  | x :: y :: rest, 0, h => by simp [pairsOf, List.getD]
  | x :: y :: rest, k + 1, h => by
    have h2 : k < (pairsOf rest).length := by
      simpa [pairsOf] using h
    simp only [pairsOf, List.getElem_cons_succ]
    rw [pairsOf_getElem rest k h2]
    have e1 : 2 * (k + 1) = 2 * k + 1 + 1 := by ring
    have e2 : 2 * (k + 1) + 1 = 2 * k + 1 + 1 + 1 := by ring
    rw [e2, e1, List.getD_cons_succ, List.getD_cons_succ, List.getD_cons_succ,
      List.getD_cons_succ]

theorem ringPoints_slice (T : Nat → Nat → Nat × Nat) (points : List Nat)
    (a b : Nat) (_he : points.length % 2 = 0) (hb : b ≤ points.length / 2) :
    ringPoints T points ((a : Int) * 2) ((b : Int) * 2) =
      ((((pairsOf points).map (fun c => TransCoord T c.1 c.2)).take b).drop
        a) := by
  have hplen : ((pairsOf points).map (fun c => TransCoord T c.1 c.2)).length =
      points.length / 2 := by simp [pairsOf_length]
  rw [take_drop_eq_range_map _ a b (TransCoord T jsUndefined jsUndefined)
    (by omega)]
  unfold ringPoints
  have hcnt : ((((b : Nat) : Int) * 2 - ((a : Nat) : Int) * 2).toNat + 1) / 2 =
      b - a := by omega
  rw [hcnt]
  apply List.map_congr_left
  intro i hi
  simp only [List.mem_range] at hi
  have hmaplen : a + i <
      ((pairsOf points).map (fun c => TransCoord T c.1 c.2)).length := by
    omega
  rw [List.getD_eq_getElem _ _ hmaplen, List.getElem_map,
    pairsOf_getElem points (a + i) (by rw [pairsOf_length]; omega)]
  unfold pointAt
  have hj1 : ¬(((a : Nat) : Int) * 2 + 2 * ((i : Nat) : Int) < 0) := by omega
  have hj2 : ¬(((a : Nat) : Int) * 2 + 2 * ((i : Nat) : Int) + 1 < 0) := by
    omega
  have e1 : ((((a : Nat) : Int)) * 2 + 2 * ((i : Nat) : Int)).toNat =
      2 * (a + i) := by omega
  have e2 : ((((a : Nat) : Int)) * 2 + 2 * ((i : Nat) : Int) + 1).toNat =
      2 * (a + i) + 1 := by omega
  simp only [hj1, hj2, if_false, e1, e2]

theorem polygonRings_eq_spec (T : Nat → Nat → Nat × Nat) (parts : List Int)
    (points : List Nat)
    (h1 : ∀ v ∈ parts.drop 1, v ≠ 0)
    (h2 : ∀ v ∈ parts, 0 ≤ v ∧ v ≤ ((points.length / 2 : Nat) : Int))
    (he : points.length % 2 = 0) :
    polygonRings T parts points = specPolygonRings T parts points := by
  unfold polygonRings specPolygonRings
  apply List.map_congr_left
  intro p hp
  simp only [List.mem_range] at hp
  have hget : parts.getD p 0 = parts[p] := List.getD_eq_getElem parts 0 hp
  have hmem : parts[p] ∈ parts := List.getElem_mem hp
  have ha := h2 _ hmem
  have hstart : parts.getD p 0 = (((parts[p]).toNat : Nat) : Int) := by
    rw [hget]; omega
  cases hnext : parts[p + 1]? with
  | none =>
    simp only [hnext, hstart]
    have hend : ((points.length : Nat) : Int) =
        (((points.length / 2 : Nat) : Nat) : Int) * 2 := by omega
    rw [hend, ringPoints_slice T points _ _ he le_rfl]
    have hplen : ((pairsOf points).map (fun c => TransCoord T c.1 c.2)).length =
        points.length / 2 := by simp [pairsOf_length]
    rw [hplen, Int.toNat_natCast]
  | some v =>
    have hvdrop : v ∈ parts.drop 1 := by
      have hd : (parts.drop 1)[p]? = some v := by
        rw [List.getElem?_drop]
        have : 1 + p = p + 1 := by omega
        rw [this, hnext]
      exact List.mem_iff_getElem?.mpr ⟨p, hd⟩
    have hvmem : v ∈ parts := List.mem_iff_getElem?.mpr ⟨p + 1, hnext⟩
    have hv0 : v ≠ 0 := h1 v hvdrop
    have hvb := h2 v hvmem
    simp only [hnext, hstart, if_neg hv0]
    have hend : v * 2 = (((v.toNat : Nat) : Int)) * 2 := by omega
    rw [hend, ringPoints_slice T points _ _ he (by omega), Int.toNat_natCast]

/-- C3 (counterexample): for the decoded Polygon record with
`parts = [0, 0]` and one point, the claimed ring layout (ring 0 empty,
spanning `parts[0]` to `parts[1]`) differs from what assembly
produces: the JS `parts[p + 1] || points.length / 2` treats the zero
part index as falsy and extends ring 0 to the end of the points. -/
theorem c3_polygon_rings_counterexample :
    shapeGeometry idT (SHPShape.poly 5 0 0 0 0 [0, 0] [10, 20]) ≠
      .ok (.polygon (specPolygonRings idT [0, 0] [10, 20])) := by
  decide

/-- C3 (amended): for a decoded Polygon record whose part indices lie
in `[0, pointCount]` and whose non-initial part indices are nonzero
(a zero `parts[k+1]` is treated as end-of-points by the JS falsiness
fallback), assembly produces a Polygon whose ring `k` spans the
reprojected points from index `parts[k]` (inclusive) to `parts[k+1]`
(exclusive), the last ring extending to the end of the point array. -/
theorem c3_polygon_rings :
    ∀ (T : Nat → Nat → Nat × Nat) (mX mY MX MY : Nat) (parts : List Int)
      (points : List Nat),
      (∀ v ∈ parts.drop 1, v ≠ 0) →
      (∀ v ∈ parts, 0 ≤ v ∧ v ≤ ((points.length / 2 : Nat) : Int)) →
      points.length % 2 = 0 →
      shapeGeometry T (SHPShape.poly 5 mX mY MX MY parts points) =
        .ok (.polygon (specPolygonRings T parts points)) := by
  intro T mX mY MX MY parts points h1 h2 he
  simp only [shapeGeometry]
  norm_num
  exact polygonRings_eq_spec T parts points h1 h2 he

/-- C3 (witness): `parts = [0, 4]` with 6 points yields exactly the
two rings points[0..4) and points[4..6). -/
theorem c3_polygon_rings_witness :
    shapeGeometry idT (SHPShape.poly 5 0 0 0 0 [0, 4]
        [1, 2, 3, 4, 5, 6, 7, 8, 9, 10, 11, 12]) =
      .ok (.polygon [[(1, 2), (3, 4), (5, 6), (7, 8)], [(9, 10), (11, 12)]]) := by
  rw [c3_polygon_rings idT 0 0 0 0 [0, 4] [1, 2, 3, 4, 5, 6, 7, 8, 9, 10, 11, 12]
    (by decide) (by decide) (by decide)]
  decide

/-! ## Transform naturality (claim C8): every coordinate of the output
is the supplied transform applied once to the corresponding coordinate
of the untransformed (identity) run. -/

theorem coordPairs_nat (T : Nat → Nat → Nat × Nat) :
    ∀ (points : List Nat),
      coordPairs T points = (coordPairs idT points).map (fun c => T c.1 c.2)
  | [] => rfl
  | [x] => by simp [coordPairs, TransCoord, idT]
  | x :: y :: rest => by
    simp only [coordPairs, List.map_cons, TransCoord, idT]
    rw [coordPairs_nat T rest]

theorem ringPoints_nat (T : Nat → Nat → Nat × Nat) (points : List Nat)
    (start endI : Int) :
    ringPoints T points start endI =
      (ringPoints idT points start endI).map (fun c => T c.1 c.2) := by
  simp [ringPoints, List.map_map, TransCoord, idT, Function.comp]

theorem polygonRings_nat (T : Nat → Nat → Nat × Nat) (parts : List Int)
    (points : List Nat) :
    polygonRings T parts points =
      (polygonRings idT parts points).map (fun r => r.map fun c => T c.1 c.2) := by
  unfold polygonRings
  rw [List.map_map]
  apply List.map_congr_left
  intro p _
  simp only [Function.comp]
  rw [ringPoints_nat T points]

theorem shapeGeometry_nat (T : Nat → Nat → Nat × Nat) (s : SHPShape) :
    shapeGeometry T s = (shapeGeometry idT s).map (mapGeometry T) := by
  cases s with
  | null => rfl
  | point x y => rfl
  | poly t0 mX mY MX MY parts points =>
    simp only [shapeGeometry]
    split_ifs with h3 h8 h5 <;>
      simp [Except.map, mapGeometry, coordPairs_nat T points,
        polygonRings_nat T parts points]

theorem buildFeatures_nat {A : Type} (T : Nat → Nat → Nat × Nat)
    (dbfRecords : List A) :
    ∀ (recs : List SHPRecordModel) (i : Nat),
      buildFeatures T dbfRecords recs i =
        (buildFeatures idT dbfRecords recs i).map (List.map (mapFeature T)) := by
  intro recs
  induction recs with
  | nil => intro i; rfl
  | cons r rest ih =>
    intro i
    simp only [buildFeatures]
    rw [shapeGeometry_nat T r.shape, ih (i + 1)]
    cases hg : shapeGeometry idT r.shape with
    | error e => rfl
    | ok g =>
      cases hrest : buildFeatures idT dbfRecords rest (i + 1) with
      | error e => rfl
      | ok fs => simp [Except.map, bind_ok_eq, mapFeature]

theorem toGeojson_nat {A : Type} (T : Nat → Nat → Nat × Nat)
    (shp : SHPFileModel) (dbfRecords : List A) :
    toGeojson T shp dbfRecords =
      (toGeojson idT shp dbfRecords).map (mapFC T) := by
  unfold toGeojson
  rw [buildFeatures_nat T dbfRecords shp.records 0]
  cases h : buildFeatures idT dbfRecords shp.records 0 with
  | error e => rfl
  | ok fs => simp [Except.map, bind_ok_eq, mapFC, TransCoord, idT]

/-- C8: the FeatureCollection bbox is computed only from the two
header corners, each independently reprojected, as
`[T(minX,minY).lon, T(minX,minY).lat, T(maxX,maxY).lon, T(maxX,maxY).lat]`;
the whole output is the identity-transform output with `T` mapped over
every coordinate pair (so an identity transform leaves every feature
coordinate equal to the decoded shape coordinate), and under the
identity transform the bbox equals the header's
`[minX, minY, maxX, maxY]` unchanged. -/
theorem c8_bbox_and_identity :
    ∀ (A : Type) (T : Nat → Nat → Nat × Nat) (shp : SHPFileModel)
      (dbfRecords : List A),
      (∀ fc, toGeojson T shp dbfRecords = .ok fc →
        fc.bbox = [(TransCoord T shp.minX shp.minY).1,
                   (TransCoord T shp.minX shp.minY).2,
                   (TransCoord T shp.maxX shp.maxY).1,
                   (TransCoord T shp.maxX shp.maxY).2]) ∧
      toGeojson T shp dbfRecords =
        (toGeojson idT shp dbfRecords).map (mapFC T) ∧
      (∀ fc, toGeojson idT shp dbfRecords = .ok fc →
        fc.bbox = [shp.minX, shp.minY, shp.maxX, shp.maxY]) := by
  intro A T shp dbfRecords
  refine ⟨?_, toGeojson_nat T shp dbfRecords, ?_⟩
  · intro fc h
    unfold toGeojson at h
    obtain ⟨fs, h1, h2⟩ := bind_eq_ok h
    have h3 := Except.ok.inj h2
    rw [← h3]
  · intro fc h
    unfold toGeojson at h
    obtain ⟨fs, h1, h2⟩ := bind_eq_ok h
    have h3 := Except.ok.inj h2
    rw [← h3]
    rfl

/-- C8 (witness): a one-point file under a shift transform gets its
bbox from the two reprojected header corners, and under the identity
transform the bbox is the header values unchanged. -/
theorem c8_bbox_and_identity_witness :
    ({ bbox := [2, 3, 4, 5],
       features := [{ geometry := .point (6, 8), properties := none }] } :
        FCModel Nat).bbox = [2, 3, 4, 5] ∧
    ({ bbox := [1, 2, 3, 4],
       features := [{ geometry := .point (5, 7), properties := none }] } :
        FCModel Nat).bbox = [1, 2, 3, 4] := by
  refine ⟨(c8_bbox_and_identity Nat (fun x y => (x + 1, y + 1))
      { fileCode := 9994, wordLength := 0, byteLength := 0, version := 1000,
        shapeType := 1, minX := 1, minY := 2, maxX := 3, maxY := 4,
        minZ := 0, maxZ := 0, minM := 0, maxM := 0,
        records := [{ number := 1, length := 10, shape := .point 5 7 }] }
      []).1 _ ?_,
    (c8_bbox_and_identity Nat (fun x y => (x + 1, y + 1))
      { fileCode := 9994, wordLength := 0, byteLength := 0, version := 1000,
        shapeType := 1, minX := 1, minY := 2, maxX := 3, maxY := 4,
        minZ := 0, maxZ := 0, minM := 0, maxM := 0,
        records := [{ number := 1, length := 10, shape := .point 5 7 }] }
      []).2.2 _ ?_⟩ <;> rfl

/-! ## Claim C10: length mismatch between shapes and attributes -/

theorem buildFeatures_ok {A : Type} (T : Nat → Nat → Nat × Nat)
    (dbfRecords : List A) :
    ∀ (recs : List SHPRecordModel) (i : Nat),
      (∀ r ∈ recs, ∃ g, shapeGeometry T r.shape = .ok g) →
      ∃ fs, buildFeatures T dbfRecords recs i = .ok fs ∧
        fs.length = recs.length ∧
        ∀ (j : Nat) (f : FeatureModel A), fs[j]? = some f →
          f.properties = dbfRecords[i + j]? := by
  intro recs
  induction recs with
  | nil =>
    intro i _
    exact ⟨[], rfl, rfl, by intro j f hf; simp at hf⟩
  | cons r rest ih =>
    intro i hall
    obtain ⟨g, hg⟩ := hall r (by simp)
    obtain ⟨fs, hfs, hlen, hprops⟩ := ih (i + 1)
      (fun u hu => hall u (by simp [hu]))
    refine ⟨{ geometry := g, properties := dbfRecords[i]? } :: fs, ?_, ?_, ?_⟩
    · simp only [buildFeatures, hg, bind_ok_eq, hfs]
      rfl
    · simp [hlen]
    · intro j f hf
      cases j with
      | zero =>
        simp only [List.getElem?_cons_zero] at hf
        have := Option.some.inj hf
        rw [← this]
        simp
      | succ j =>
        simp only [List.getElem?_cons_succ] at hf
        rw [hprops j f hf]
        congr 1
        omega

/-- C10: when the shape-record array is longer than the attribute
array, `toGeojson` raises no error for the mismatch — provided every
shape is of an assemblable type it emits exactly one feature per shape
record in order, feature `i` takes `dbf.records[i]` as its properties,
and every feature past the end of the attribute array gets the missing
(`undefined`) properties value. -/
theorem c10_length_mismatch :
    ∀ (A : Type) (T : Nat → Nat → Nat × Nat) (shp : SHPFileModel)
      (dbfRecords : List A),
      dbfRecords.length < shp.records.length →
      (∀ r ∈ shp.records, ∃ g, shapeGeometry T r.shape = .ok g) →
      ∃ fc, toGeojson T shp dbfRecords = .ok fc ∧
        fc.features.length = shp.records.length ∧
        (∀ (i : Nat) (f : FeatureModel A), fc.features[i]? = some f →
          f.properties = dbfRecords[i]?) ∧
        (∀ (i : Nat) (f : FeatureModel A), dbfRecords.length ≤ i →
          fc.features[i]? = some f → f.properties = none) := by
  intro A T shp dbfRecords _hmis hall
  obtain ⟨fs, hfs, hlen, hprops⟩ := buildFeatures_ok T dbfRecords shp.records 0
    hall
  refine ⟨{ bbox := [(TransCoord T shp.minX shp.minY).1,
                     (TransCoord T shp.minX shp.minY).2,
                     (TransCoord T shp.maxX shp.maxY).1,
                     (TransCoord T shp.maxX shp.maxY).2],
            features := fs }, ?_, hlen, ?_, ?_⟩
  · unfold toGeojson
    rw [hfs]
    rfl
  · intro i f hf
    have := hprops i f hf
    simpa using this
  · intro i f hi hf
    have h1 := hprops i f hf
    simp only [Nat.zero_add] at h1
    rw [h1]
    exact List.getElem?_eq_none (by omega)

/-- C10 (witness): two point records joined with a single attribute
record — no error, two features, the second with missing properties. -/
theorem c10_length_mismatch_witness :
    ([42] : List Nat).length <
      ({ fileCode := 9994, wordLength := 0, byteLength := 0, version := 1000,
         shapeType := 1, minX := 0, minY := 0, maxX := 0, maxY := 0,
         minZ := 0, maxZ := 0, minM := 0, maxM := 0,
         records := [{ number := 1, length := 10, shape := .point 1 2 },
                     { number := 2, length := 10, shape := .point 3 4 }] } :
        SHPFileModel).records.length ∧
    ∃ fc, toGeojson idT
        { fileCode := 9994, wordLength := 0, byteLength := 0, version := 1000,
          shapeType := 1, minX := 0, minY := 0, maxX := 0, maxY := 0,
          minZ := 0, maxZ := 0, minM := 0, maxM := 0,
          records := [{ number := 1, length := 10, shape := .point 1 2 },
                      { number := 2, length := 10, shape := .point 3 4 }] }
        ([42] : List Nat) = .ok fc ∧
      fc.features.length = 2 ∧
      (∀ (i : Nat) (f : FeatureModel Nat), fc.features[i]? = some f →
        f.properties = ([42] : List Nat)[i]?) ∧
      (∀ (i : Nat) (f : FeatureModel Nat), ([42] : List Nat).length ≤ i →
        fc.features[i]? = some f → f.properties = none) :=
  ⟨by decide,
    c10_length_mismatch Nat idT
      { fileCode := 9994, wordLength := 0, byteLength := 0, version := 1000,
        shapeType := 1, minX := 0, minY := 0, maxX := 0, maxY := 0,
        minZ := 0, maxZ := 0, minM := 0, maxM := 0,
        records := [{ number := 1, length := 10, shape := .point 1 2 },
                    { number := 2, length := 10, shape := .point 3 4 }] }
      [42] (by decide)
      (by intro r hr; fin_cases hr <;> exact ⟨_, rfl⟩)⟩

end Shp2GeoJson
